import Mathlib

/-!
Verification of the mailauth email-authentication library against its
natural-language specification.

The development shallowly embeds the relevant JavaScript sources:

* `lib/tools.js` (shipped here as `src/unnamed/part_001`): `getPublicKey`,
  `getAligment`, `formatDomain`, `formatRelaxedLine`,
  `formatSignatureHeaderLine`, `escapeCommentValue`, `parseLogoFromX509`;
* the SPF report module (second half of `src/lib/commands/report.js`):
  `limitedResolver`, `verify`, `formatHeaders`.

Strings are modelled as `List Char` (`Str`), and every JavaScript string
primitive used by the code is given a small structural-recursive model so
that all definitions evaluate by kernel reduction.  All inputs considered
are ASCII, which the doc comments note wherever it matters.
-/

set_option maxHeartbeats 1000000

namespace Mailauth

/-- Strings as character lists; all embedded functions work on this type. -/
abbrev Str := List Char

/-- The JavaScript `\s` whitespace class, restricted to ASCII
(space, tab, line feed, carriage return, vertical tab, form feed).
The Unicode space characters matched by `\s` do not occur in any input
considered here. -/
def isJsWS (c : Char) : Bool :=
  c == ' ' || c == '\t' || c == '\n' || c == '\r' || c == '\x0b' || c == '\x0c'

/-- ASCII lowercasing of one character: code points 65-90 (`A`-`Z`) are
shifted by 32, everything else is untouched.  Agrees with JavaScript
`toLowerCase` on ASCII input. -/
def lowerChar (c : Char) : Char :=
  if h : 65 ≤ c.toNat ∧ c.toNat ≤ 90 then
    Char.ofNatAux (c.toNat + 32) (Or.inl (by omega))
  else c

/-- ASCII uppercasing of one character (JavaScript `toUpperCase` on ASCII). -/
def upperChar (c : Char) : Char :=
  if h : 97 ≤ c.toNat ∧ c.toNat ≤ 122 then
    Char.ofNatAux (c.toNat - 32) (Or.inl (by omega))
  else c

/-- JavaScript `toLowerCase` on an ASCII string. -/
def lowerStr (l : Str) : Str := l.map lowerChar

/-- JavaScript `toUpperCase` on an ASCII string. -/
def upperStr (l : Str) : Str := l.map upperChar

/-- Drop leading JS whitespace (the front half of `String.prototype.trim`). -/
def trimLeft (l : Str) : Str := l.dropWhile isJsWS

/-- Drop trailing JS whitespace (the back half of `String.prototype.trim`). -/
def trimRight (l : Str) : Str := ((l.reverse).dropWhile isJsWS).reverse

/-- JavaScript `String.prototype.trim`. -/
def trimStr (l : Str) : Str := trimRight (trimLeft l)

/-- Generic model of `replace(/X+/g, r)` for a character class `p`: every
maximal run of characters satisfying `p` is replaced by the single
character `rep`.  The `inRun` flag records whether the previous character
belonged to a run. -/
def replaceRunsAux (p : Char → Bool) (rep : Char) : Bool → Str → Str
  | _, [] => []
  | inRun, c :: t =>
    if p c then
      if inRun then replaceRunsAux p rep true t
      else rep :: replaceRunsAux p rep true t
    else c :: replaceRunsAux p rep false t

/-- `replace(/\s+/g, ' ')`: collapse each whitespace run to a single space. -/
def collapseWS (l : Str) : Str := replaceRunsAux isJsWS ' ' false l

/-- `replace(/\s+/g, '')`: removing every whitespace run is the same as
removing every whitespace character. -/
def stripWS (l : Str) : Str := l.filter (fun c => !(isJsWS c))

/-- Split a character list at every occurrence of `sep`
(JavaScript `split(sep)` / Lean `String.splitOn` semantics). -/
def splitOnChar (sep : Char) : Str → List Str
  | [] => [[]]
  | c :: t =>
    match splitOnChar sep t with
    | [] => [[]]
    | h :: r => if c == sep then [] :: h :: r else (c :: h) :: r

/-- Bool test for `needle` occurring as a contiguous substring of `hay`. -/
def containsSub (needle : Str) : Str → Bool
  | [] => needle.isEmpty
  | c :: t => needle.isPrefixOf (c :: t) || containsSub needle t

/-- `none`/`undefined` and the empty string are the falsy string values of
JavaScript (`!domain`, `!publicKey`, `result.status.comment ? …`). -/
def jsFalsyStr : Option Str → Bool
  | none => true
  | some [] => true
  | some _ => false

/-! ### DKIM public-key resolution (`getPublicKey`, tools.js lines 233-291) -/

/-- `rr`: tools.js lines 238-243.  The fragments of the **first** TXT record
are concatenated with `join('')` and then every whitespace character is
removed by `replace(/\s+/g, '')`. -/
def rrOfTxt (txt : List (List Str)) : Str := stripWS ((txt.headD []).flatten)

/-- Modelled from the spec: the repository's tag-list parser
(`lib/parse-dkim-headers.js` is not included under `src/`).  Spec §4.2: keys
are lowercased for lookup, loose whitespace is accepted, values run to the
next `;`, and empty tags are permitted and preserved.  The text before the
first `;` (here the `DNS: TXT` prefix that `getPublicKey` prepends) is the
header's main value, not a tag.  A bare word without `=` carries no value. -/
def parseTags (s : Str) : List (Str × Str) :=
  ((splitOnChar ';' s).drop 1).filterMap fun part =>
    match splitOnChar '=' part with
    | [] => none
    | [_] => none
    | k :: rest => some (lowerStr (trimStr k), List.intercalate ['='] rest)

/-- The shape of the object returned by Node's `crypto.createPublicKey`,
as far as `getPublicKey` inspects it. -/
structure KeyInfo where
  asymmetricKeyType : Str
  modulusLength : Nat
deriving DecidableEq

/-- Errors a call of `getPublicKey` can terminate with:
`coded` models an `Error` whose `code` (and optional `rr`) property was set
by tools.js itself; `referenceError` models the strict-mode `ReferenceError`
raised by an assignment to an undeclared identifier; `external` models an
error thrown by `crypto.createPublicKey` and rethrown unchanged. -/
inductive JsError where
  | coded (code : Str) (message : Str) (rr : Option Str)
  | referenceError (message : Str)
  | external (message : Str)
deriving DecidableEq

/-- Successful result `{ publicKey, rr }` of `getPublicKey`. -/
structure PublicKeyResult where
  publicKey : Str
  rr : Str
deriving DecidableEq

/-- Line 264: `Buffer.from(…)` wraps the base64 key in a PEM envelope. -/
def pemWrap (publicKey : Str) : Str :=
  "-----BEGIN PUBLIC KEY-----\n".data ++ publicKey ++ "\n-----END PUBLIC KEY-----".data

/-- `getPublicKey(type, name, minBitLength, resolver)`, tools.js lines
233-291.  `txt` is the list the injected resolver returned for
`resolver(name, 'TXT')`; `createPublicKey` models the external
`crypto.createPublicKey` (`none` = it threw).

tools.js is a strict-mode file (`'use strict'`, line 3) and `publicKeyPem`
on line 264 is never declared, so the assignment on line 264 throws a
`ReferenceError` whenever it is reached; the remainder of the function
(lines 265-285) is translated below it but is unreachable. -/
def getPublicKey (ty : Str) (txt : List (List Str)) (minBitLength : Option Nat)
    (createPublicKey : Str → Option KeyInfo) : Except JsError PublicKeyResult := do
  -- line 234: `minBitLength = minBitLength || 1024` (JS `||`: 0 is falsy).
  -- The variable is never used again: the length check on line 277 compares
  -- against the literal 1024.
  let _minBitLength : Nat := match minBitLength with
    | none => 1024
    | some 0 => 1024
    | some n => n
  -- lines 238-243
  let rr := rrOfTxt txt
  if rr.isEmpty then
    -- lines 288-290: falsy `rr`
    throw (.coded "EINVALIDVAL".data "Missing key value".data none)
  -- line 247
  let entry := parseTags ("DNS: TXT;".data ++ rr)
  -- lines 249-255: `!publicKey` holds both for a missing `p` tag and for
  -- `p=` with an empty value (the empty string is falsy)
  let publicKey := List.lookup "p".data entry
  if jsFalsyStr publicKey then
    throw (.coded "EINVALIDVAL".data "Missing key value".data (some rr))
  -- lines 257-262
  let vBad : Bool := match List.lookup "v".data entry with
    | some v => trimStr (lowerStr v) != "dkim1".data
    | none => false
  if ty == "DKIM".data && vBad then
    throw (.coded "EINVALIDVER".data "Unknown key version".data (some rr))
  -- line 264: `publicKeyPem = Buffer.from(…)` assigns an undeclared
  -- identifier; under `'use strict'` this statement throws.
  throw (.referenceError "publicKeyPem is not defined".data)
  -- lines 264-285 as written (unreachable):
  let publicKeyPem := pemWrap (publicKey.getD [])
  match createPublicKey publicKeyPem with
  | none => throw (.external "createPublicKey failed".data)
  | some keyInfo =>
    let keyType := keyInfo.asymmetricKeyType
    let kBad : Bool := match List.lookup "k".data entry with
      | some kv => lowerStr kv != keyType
      | none => false
    if !(keyType == "rsa".data || keyType == "ed25519".data) || kBad then
      throw (.coded "EINVALIDTYPE".data "Unknown key type".data (some rr))
    if keyType == "rsa".data && decide (keyInfo.modulusLength < 1024) then
      throw (.coded "ESHORTKEY".data "Key too short".data (some rr))
    return { publicKey := publicKeyPem, rr := rr }

/-! ### DMARC alignment (`formatDomain` / `getAligment`, tools.js lines 392-424) -/

/-- Modelled from the spec: the external public-suffix dataset (`psl.get`)
restricted to the `com` top-level domain.  The organizational domain is the
public suffix plus one label (spec glossary); `psl.get` lowercases its input
and returns `null` for a bare suffix, an empty label, or an unlisted name. -/
def pslGet (domain : Str) : Option Str :=
  match (splitOnChar '.' (lowerStr domain)).reverse with
  | tld :: sld :: _ =>
    if tld == "com".data && !sld.isEmpty then some (sld ++ '.' :: tld) else none
  | _ => none

/-- `formatDomain`, tools.js lines 392-400: lowercase and trim.  The source
additionally passes the domain through `punycode.toASCII` and lowercases and
trims once more; on the ASCII domains considered here `toASCII` is the
identity, so the second pass adds nothing. -/
def formatDomain (domain : Str) : Str := trimStr (lowerStr domain)

/-- The strict `for` loop of `getAligment` (tools.js lines 406-411) with
its early `return domain`: each candidate is first reduced to
`formatDomain(psl.get(domain) || domain)` — its organizational domain —
and then compared (formatted once more) against `fd`. -/
def alignScanStrict (fd : Str) : List Str → Option Str
  | [] => none
  | domain :: rest =>
    let d := formatDomain ((pslGet domain).getD domain)
    if formatDomain d == fd then some d else alignScanStrict fd rest

/-- The organizational-domain `for` loop of `getAligment` (tools.js lines
416-421) with its early `return domain`. -/
def alignScanOrg (fd : Str) : List Str → Option Str
  | [] => none
  | domain :: rest =>
    let d := formatDomain ((pslGet domain).getD domain)
    if d == fd then some d else alignScanOrg fd rest

/-- `getAligment(fromDomain, domainList, strict)`, tools.js lines 402-424.
`none` models the JavaScript return value `false`.  Note the source's
control flow: when the strict loop finds no match it *falls through* to the
organizational-domain loop (there is no early `return false`), and the
strict loop itself compares `psl.get(domain) || domain`, i.e. the
candidate's organizational domain, against `fromDomain`. -/
def getAligment (fromDomain : Str) (domainList : List Str) (strict : Bool) : Option Str :=
  -- line 405: in strict mode `fromDomain` is reassigned before the loop
  let fd1 := if strict then formatDomain fromDomain else fromDomain
  let strictHit := if strict then alignScanStrict fd1 domainList else none
  match strictHit with
  | some d => some d
  | none =>
    -- lines 414-421: match org domains
    alignScanOrg (formatDomain ((pslGet fd1).getD fd1)) domainList

/-- The organizational domain a candidate is reduced to on every comparison
path of `getAligment`: `formatDomain(psl.get(domain) || domain)`. -/
def orgDomain (domain : Str) : Str := formatDomain ((pslGet domain).getD domain)

/-! ### SPF report module (`lib/spf/index.js`, second half of
`src/lib/commands/report.js`) -/

/-- Line 79: `MAX_RESOLVE_COUNT = 50`. -/
def MAX_RESOLVE_COUNT : Nat := 50

/-- Line 92: `maxResolveCount = maxResolveCount || MAX_RESOLVE_COUNT`
(JS `||`: an absent option and an explicit 0 both fall back to 50). -/
def effectiveMaxResolveCount : Option Nat → Nat
  | none => MAX_RESOLVE_COUNT
  | some 0 => MAX_RESOLVE_COUNT
  | some n => n

/-- Character class `[\x20-\x2D\x2f-\x7e]` of the domain-validation regex on
line 119 (note that it excludes `.` = `\x2E`). -/
def spfLabelChar (c : Char) : Bool :=
  ('\x20' ≤ c && c ≤ '\x2d') || ('\x2f' ≤ c && c ≤ '\x7e')

/-- The final label `[a-z]+[a-z\-0-9]*` of the regex on line 119.  A string
matches that pattern iff it is nonempty, starts with a lowercase letter and
continues with characters from `[a-z\-0-9]`. -/
def spfTldOk : Str → Bool
  | [] => false
  | c :: rest =>
    ('a' ≤ c && c ≤ 'z') &&
      rest.all (fun d => ('a' ≤ d && d ≤ 'z') || d == '-' || ('0' ≤ d && d ≤ '9'))

/-- The domain-validation regex `^([\x20-\x2D\x2f-\x7e]+\.)+[a-z]+[a-z\-0-9]*$`
(line 119).  Because the repeated class excludes the dot, a string matches
iff splitting it at every dot yields at least two parts, all parts before
the last are nonempty over the class, and the last part matches the final
label pattern. -/
def validSpfDomain (s : Str) : Bool :=
  let parts := splitOnChar '.' s
  decide (2 ≤ parts.length) &&
    parts.dropLast.all (fun l => !l.isEmpty && l.all spfLabelChar) &&
    spfTldOk (parts.getLastD [])

/-- A response of the injected DNS resolver: a result list, or a rejection
carrying an error `code` (`ENOTFOUND`, `ENODATA`, `ETIMEOUT`, …). -/
inductive DnsResp where
  | ok (records : List (List Str))
  | err (code : Str)
deriving DecidableEq

/-- What one call of the function returned by `limitedResolver` produces. -/
inductive LrOutcome where
  /-- the special `resolveCount` / `resolveLimit` queries return a number -/
  | value (n : Nat)
  /-- a successful resolution (or `[]` for `ENOTFOUND` / `ENODATA`) -/
  | records (rs : List (List Str))
  /-- a thrown error carrying `err.spfResult = { error, text }` -/
  | spfErr (error : Str) (text : Str)
  /-- a rethrown resolver error without an `spfResult` property -/
  | raw (code : Str)
deriving DecidableEq

/-- State after one call of the limited resolver: the new value of the
closure variable `resolveCount`, the outcome, and whether the underlying
resolver was invoked during the call. -/
structure LrResult where
  count : Nat
  outcome : LrOutcome
  usedUnderlying : Bool
deriving DecidableEq

/-- One call of the closure returned by `limitedResolver(resolver,
maxResolveCount)`, report.js lines 90-151, with the mutable `resolveCount`
threaded explicitly.  `domain = none` models the literal `false` that
`verify` passes for the special queries; `some []` is the falsy empty
string. -/
def lrStep (resolver : Str → Str → DnsResp) (maxResolveCount : Nat)
    (count : Nat) (domain : Option Str) (ty : Str) : LrResult :=
  if jsFalsyStr domain && ty == "resolveCount".data then
    ⟨count, .value count, false⟩
  else if jsFalsyStr domain && ty == "resolveLimit".data then
    ⟨count, .value maxResolveCount, false⟩
  else
    -- line 106: `resolveCount++` happens before every other check
    let c := count + 1
    if maxResolveCount < c then
      ⟨c, .spfErr "permerror".data "Too many DNS requests".data, false⟩
    else if !validSpfDomain (domain.getD []) then
      ⟨c, .spfErr "permerror".data ("Invalid domain ".data ++ domain.getD []), false⟩
    else
      match resolver (domain.getD []) ty with
      | .ok rs => ⟨c, .records rs, true⟩
      | .err code =>
        if code == "ENOTFOUND".data || code == "ENODATA".data then ⟨c, .records [], true⟩
        else if code == "ETIMEOUT".data then ⟨c, .spfErr "temperror".data "DNS timeout".data, true⟩
        else ⟨c, .raw code, true⟩

/-- Run a sequence of calls against one limited resolver, starting from
counter state `st.1` with `st.2` underlying invocations so far. -/
def lrRun (resolver : Str → Str → DnsResp) (maxResolveCount : Nat)
    (st : Nat × Nat) (qs : List (Option Str × Str)) : Nat × Nat :=
  qs.foldl
    (fun st q =>
      let r := lrStep resolver maxResolveCount st.1 q.1 q.2
      (r.count, st.2 + (if r.usedUnderlying then 1 else 0)))
    st

/-- The `{ qualifier?, error?, text? }` object `spfVerify` resolves with or
an `err.spfResult` carries. -/
structure SpfVerifyResult where
  qualifier : Option Str
  error : Option Str
  text : Option Str

/-- JS `a || b` on two possibly-falsy strings. -/
def jsOrStr (a b : Option Str) : Option Str :=
  if jsFalsyStr a then b else a

/-- `${result.text ? `: ${result.text}` : ''}` (lines 280 and 286). -/
def textSuffix (text : Option Str) : Str :=
  if jsFalsyStr text then [] else ": ".data ++ text.getD []

/-- The `switch (result.qualifier || result.error)` of `verify`
(report.js lines 250-288): the final `status.result` string and the
`status.comment` string. -/
def verifyStatus (mta sender ip domain : Str) (r : SpfVerifyResult) : Str × Str :=
  match jsOrStr r.qualifier r.error with
  | some q =>
    if q == "+".data then
      ("pass".data,
        mta ++ ": domain of ".data ++ sender ++ " designates ".data ++ ip ++
          " as permitted sender".data)
    else if q == "~".data then
      ("softfail".data,
        mta ++ ": domain of transitioning ".data ++ sender ++
          " does not designate ".data ++ ip ++ " as permitted sender".data)
    else if q == "-".data then
      ("fail".data,
        mta ++ ": domain of ".data ++ sender ++ " does not designate ".data ++ ip ++
          " as permitted sender".data)
    else if q == "?".data then
      ("neutral".data,
        mta ++ ": ".data ++ ip ++ " is neither permitted nor denied by domain of ".data ++ sender)
    else if q == "none".data then
      ("none".data, mta ++ ": ".data ++ domain ++ " does not designate permitted sender hosts".data)
    else if q == "permerror".data then
      ("permerror".data,
        mta ++ ": permanent error in processing during lookup of ".data ++ sender ++
          textSuffix r.text)
    else
      ("temperror".data,
        mta ++ ": error in processing during lookup of ".data ++ sender ++ textSuffix r.text)
  | none =>
    ("temperror".data,
      mta ++ ": error in processing during lookup of ".data ++ sender ++ textSuffix r.text)

/-- `escapeCommentValue`, tools.js lines 342-350: control-character runs
become a space, whitespace runs collapse to one space, the result is
trimmed, and `\` and `)` are escaped with a backslash. -/
def escapeBackslashParen : Str → Str
  | [] => []
  | c :: t =>
    if c == '\\' || c == ')' then '\\' :: c :: escapeBackslashParen t
    else c :: escapeBackslashParen t

/-- Character class `[\x00-\x1F]` (control characters). -/
def isCtl (c : Char) : Bool := c ≤ '\x1f'

def escapeCommentValue (value : Str) : Str :=
  escapeBackslashParen (trimStr (replaceRunsAux isJsWS ' ' false (replaceRunsAux isCtl ' ' false value)))

/-- The fields of the `response` object that `formatHeaders` reads
(report.js lines 81-87): `response.status.result`,
`response.status.comment` (`none` models the initial `false`), and
`response['client-ip']`. -/
structure SpfStatusView where
  result : Str
  comment : Option Str

structure SpfResponseView where
  status : SpfStatusView
  clientIp : Str

/-- The logical `Received-SPF` line built by `formatHeaders` before the
external `libmime.foldLines(header, 160)` call (report.js lines 82-84). -/
def formatHeadersCore (r : SpfResponseView) : Str :=
  "Received-SPF: ".data ++ r.status.result ++
    (if jsFalsyStr r.status.comment then []
     else " (".data ++ escapeCommentValue (r.status.comment.getD []) ++ ")".data) ++
    " client-ip=".data ++ r.clientIp ++ ";".data

/-- `formatHeaders` itself: the logical line passed through
`libmime.foldLines(·, 160)`, an external collaborator modelled as a
parameter (it only inserts line breaks at existing whitespace). -/
def formatHeaders (fold160 : Str → Str) (r : SpfResponseView) : Str :=
  fold160 (formatHeadersCore r)

/-- The header form asserted by the specification for claim C6:
`Received-SPF: <status>[ (<comment>)] client-ip=<ip>;
envelope-from="<sender>"; helo=<helo>;` with ` rr=<record>` when a matching
record is available. -/
def claimedReceivedSpfForm (status : Str) (comment : Option Str) (ip sender helo : Str)
    (rrOpt : Option Str) : Str :=
  "Received-SPF: ".data ++ status ++
    (match comment with
     | some c => " (".data ++ c ++ ")".data
     | none => []) ++
    " client-ip=".data ++ ip ++ "; envelope-from=\"".data ++ sender ++ "\"; helo=".data ++
    helo ++ ";".data ++
    (match rrOpt with
     | some rr => " rr=".data ++ rr
     | none => [])

/-- The amended header form: status, optional escaped comment, client-ip,
and nothing else. -/
def amendedReceivedSpfForm (status : Str) (comment : Option Str) (ip : Str) : Str :=
  "Received-SPF: ".data ++ status ++
    (if jsFalsyStr comment then []
     else " (".data ++ escapeCommentValue (comment.getD []) ++ ")".data) ++
    " client-ip=".data ++ ip ++ ";".data

/-! ### Relaxed header canonicalization (`formatRelaxedLine`, tools.js
lines 377-390) -/

/-- `replace(/\r?\n/g, '')` (the unfold step): every line feed is removed,
together with a carriage return immediately preceding it; a lone carriage
return is kept (it is whitespace and is handled by the later collapse). -/
def removeLineBreaks : Str → Str
  | [] => []
  | '\r' :: '\n' :: t => removeLineBreaks t
  | '\n' :: t => removeLineBreaks t
  | c :: t => c :: removeLineBreaks t

/-- `replace(/^([^:]*):\s*/, (m, k) => k.toLowerCase().trim() + ':')`:
everything before the first colon is the key; it is lowercased and trimmed
and the whitespace after the colon is dropped.  A line without a colon is
left unchanged (the regex does not match). -/
def relaxedKeyReplace (l : Str) : Str :=
  let key := l.takeWhile (fun c => c != ':')
  match l.dropWhile (fun c => c != ':') with
  | ':' :: rest => trimStr (lowerStr key) ++ ':' :: rest.dropWhile isJsWS
  | _ => l

/-- `formatRelaxedLine(line, suffix)`, tools.js lines 377-390: unfold, key
replacement, whitespace collapse, trim, then the suffix (the caller passes
`'\r\n'`). -/
def formatRelaxedLine (line : Str) (suffix : Str) : Str :=
  trimStr (collapseWS (relaxedKeyReplace (removeLineBreaks line))) ++ suffix

/-! ### Signature header emission (`formatSignatureHeaderLine`, tools.js
lines 29-31 and 142-231) -/

def keyOrderingDKIM : List Str :=
  ["v".data, "a".data, "c".data, "d".data, "h".data, "i".data, "l".data, "q".data,
   "s".data, "t".data, "x".data, "z".data, "bh".data, "b".data]

def keyOrderingARC : List Str :=
  ["i".data, "a".data, "c".data, "d".data, "h".data, "l".data, "q".data, "s".data,
   "t".data, "x".data, "z".data, "bh".data, "b".data]

def keyOrderingAS : List Str :=
  ["i".data, "a".data, "t".data, "cv".data, "d".data, "s".data, "b".data]

/-- A JavaScript property value of the `values` object: a string, a number,
or the literal `false`; a property that is absent is simply not in the
association list. -/
inductive JVal where
  | str (s : Str)
  | num (n : Nat)
  | fls
deriving DecidableEq, Inhabited

/-- `let val = values[key] || ''` (line 193): `false` and the number 0 are
falsy and fall back to the empty string; a number renders in decimal. -/
def jvalOrEmpty : JVal → Str
  | .str s => s
  | .num 0 => []
  | .num (n + 1) => Nat.toDigits 10 (n + 1)
  | .fls => []

/-- `Object.assign(base, overlay)` key/value semantics on association lists
with unique keys: the base's keys (values overridden by the overlay where
present) followed by the overlay's new keys. -/
def objAssign (base overlay : List (Str × JVal)) : List (Str × JVal) :=
  base.map (fun kv => (kv.1, (List.lookup kv.1 overlay).getD kv.2)) ++
    overlay.filter (fun kv => (List.lookup kv.1 base).isNone)

/-- The defaults merged in by the `switch (type)` (lines 146-185);
`now` is `Math.round(Date.now() / 1000)`. -/
def sigDefaults (ty : Str) (now : Nat) : List (Str × JVal) :=
  if ty == "DKIM".data then
    [("v".data, .num 1), ("t".data, .num now), ("q".data, .str "dns/txt".data)]
  else if ty == "ARC".data then
    [("t".data, .num now), ("q".data, .str "dns/txt".data)]
  else if ty == "AS".data then
    [("t".data, .num now)]
  else []

/-- The emitted header key per signature type; `none` models the
`throw new Error('Unknown Signature type')` default branch. -/
def headerKeyOf (ty : Str) : Option Str :=
  if ty == "DKIM".data then some "DKIM-Signature".data
  else if ty == "ARC".data then some "ARC-Message-Signature".data
  else if ty == "AS".data then some "ARC-Seal".data
  else none

/-- The tag ordering table per signature type (lines 29-31, selected by the
`switch`). -/
def keyOrderingOf (ty : Str) : List Str :=
  if ty == "DKIM".data then keyOrderingDKIM
  else if ty == "ARC".data then keyOrderingARC
  else if ty == "AS".data then keyOrderingAS
  else []

/-- The model of `'b=…'.replace(/.{75}/g, '$& ')`: scanning with a chunk
budget, a space is emitted after every full 75-character run.  The regex
also leaves a trailing space when the length is an exact multiple of 75;
the `.trim()` that `formatSignatureHeaderLine` applies right after removes
exactly that space, so `trimStr (rep75Aux s 75)` is the same function as
`replace`-then-`trim`. -/
def rep75Aux : Str → Nat → Str
  | [], _ => []
  | c :: t, 0 => ' ' :: c :: rep75Aux t 74
  | c :: t, n + 1 => c :: rep75Aux t n

/-- `` `${key}=${val}`.replace(/.{75}/g, '$& ').trim() `` (line 196). -/
def foldSigB (s : Str) : Str := trimStr (rep75Aux s 75)

/-- Split a string into maximal segments of 75 characters. -/
def chunk75 (l : Str) : List Str :=
  if _h : l = [] then []
  else if l.length ≤ 75 then [l]
  else l.take 75 :: chunk75 (l.drop 75)
termination_by l.length
decreasing_by
  simp only [List.length_drop]
  omega

/-- One emitted `key=value` pair (the body of the `.map` on lines 192-223).
`toASCII` models the external `punycode.toASCII`; `none` means it threw, in
which case the source ignores the error and keeps the original value. -/
def renderTag (ty : Str) (folded : Bool) (toASCII : Str → Option Str)
    (k : Str) (v : JVal) : Str :=
  let val := jvalOrEmpty v
  if k == "b".data && folded && !val.isEmpty then
    -- fold signature value
    foldSigB ("b=".data ++ val)
  else
    let val := if k == "d".data || k == "s".data then (toASCII val).getD val else val
    let val :=
      if k == "i".data && ty == "DKIM".data then
        match val.findIdx? (fun c => c == '@') with
        | some atPos =>
          val.take (atPos + 1) ++ ((toASCII (val.drop (atPos + 1))).getD (val.drop (atPos + 1)))
        | none => val
      else val
    k ++ '=' :: val

/-- `ordering.indexOf(key)`: the position of `key` in the tag-ordering
table.  (For a key that is absent JavaScript returns `-1`; the comparator
only ever sees keys that survived the `keyOrdering.includes(key)` filter,
so the total model below agrees with the source on every compared key.) -/
def tagIdx (ordering : List Str) (k : Str) : Nat :=
  match ordering with
  | [] => 0
  | a :: t => if a == k then 0 else tagIdx t k + 1

/-- The filter on line 190: drop `false` values and keys outside the
ordering table.  (`typeof values[key] !== 'undefined'` holds for every
present property, and `values.key !== null` tests the literal property
named `key`, which is `undefined` and therefore never `null`.) -/
def sigKeep (ordering : List Str) (kv : Str × JVal) : Bool :=
  kv.2 != JVal.fls && ordering.contains kv.1

/-- The filtered tag list in emission order: the `.sort((a, b) =>
keyOrdering.indexOf(a) - keyOrdering.indexOf(b))` of line 191, modelled by
a sort under the comparator's total preorder (the retained keys are
distinct members of the ordering table, so every sort agrees). -/
def sigTagsOrdered (ty : Str) (now : Nat) (values : List (Str × JVal)) :
    List (Str × JVal) :=
  let ordering := keyOrderingOf ty
  List.insertionSort
    (fun a b => tagIdx ordering a.1 ≤ tagIdx ordering b.1)
    ((objAssign (sigDefaults ty now) values).filter (sigKeep ordering))

/-- `formatSignatureHeaderLine(type, values, folded)` up to the final
external `libmime.foldLines` (which the source applies only when `folded`
is set and which merely wraps long lines).  `none` models the thrown
`Unknown Signature type` error. -/
def formatSignatureHeaderCore (ty : Str) (now : Nat) (folded : Bool)
    (toASCII : Str → Option Str) (values : List (Str × JVal)) : Option Str :=
  let tyU := upperStr ty
  match headerKeyOf tyU with
  | none => none
  | some headerKey =>
    some (headerKey ++ ": ".data ++
      List.intercalate "; ".data
        ((sigTagsOrdered tyU now values).map (fun kv => renderTag tyU folded toASCII kv.1 kv.2)))

/-! ### VMC logo extraction (`parseLogoFromX509`, tools.js lines 454-483) -/

/-- One parsed X.509 extension as exposed by the external `@fidm/x509`
`Certificate` object, as far as `parseLogoFromX509` inspects it. -/
structure AltName where
  dnsName : Option Str
deriving DecidableEq

structure X509Ext where
  oid : Str
  value : Str
  altNames : Option (List AltName)
deriving DecidableEq

structure X509Cert where
  extensions : List X509Ext
deriving DecidableEq

/-- `false`, or the `{ pem, altNames, svg }` object. -/
inductive LogoResult where
  | notFound
  | found (pem : Str) (altNames : List Str) (svg : Str)
deriving DecidableEq

/-- The JavaScript word-character class `[A-Za-z0-9_]` (for `\b`). -/
def isWordChar (c : Char) : Bool :=
  ('a' ≤ c && c ≤ 'z') || ('A' ≤ c && c ≤ 'Z') || ('0' ≤ c && c ≤ '9') || c == '_'

/-- Index of the first occurrence of `tok` preceded by a word boundary
(start of string or a non-word character), i.e. the first match of
`/\b<tok>/` for a token starting with a word character. -/
def bTokenIdxAux (tok : Str) : Bool → Nat → Str → Option Nat
  | _, _, [] => none
  | prevWord, i, c :: t =>
    if !prevWord && tok.isPrefixOf (c :: t) then some i
    else bTokenIdxAux tok (isWordChar c) (i + 1) t

def bTokenIdx (tok s : Str) : Option Nat := bTokenIdxAux tok false 0 s

/-- Lines 457-460: subjectAltName dNSNames, trimmed, falsy entries dropped
(an extension without `altNames` contributes nothing after the filter). -/
def certAltNames (cert : X509Cert) : List Str :=
  ((cert.extensions.filter (fun e => e.oid == "2.5.29.17".data)).flatMap
      (fun d => (d.altNames.getD []).map (fun an => an.dnsName.map trimStr))).filterMap
    (fun an =>
      match an with
      | some s => if s.isEmpty then none else some s
      | none => none)

/-- Line 465: the id-pe-logotype extension `1.3.6.1.5.5.7.1.12`. -/
def certLogoExt (cert : X509Cert) : Option X509Ext :=
  cert.extensions.find? (fun e => e.oid == "1.3.6.1.5.5.7.1.12".data)

/-- `parseLogoFromX509(pem)`, tools.js lines 454-483.  The external
`Certificate.fromPEM` is modelled by passing the parsed certificate
alongside the PEM bytes; `gz` models `Buffer.from(·, 'base64')` followed by
`zlib.gunzip` (`none` = gunzip rejected, which the source does not catch,
so the returned promise rejects: modelled as `Except.error ()`). -/
def parseLogoFromX509 (gz : Str → Option Str) (pem : Str) (cert : X509Cert) :
    Except Unit LogoResult :=
  let altNames := certAltNames cert
  if altNames.isEmpty then .ok .notFound
  else
    match certLogoExt cert with
    | none => .ok .notFound
    | some logo =>
      if logo.value.isEmpty then .ok .notFound
      else
        -- line 472: `/\bdata:/.test(str) && str.match(/\bbase64,/)`
        let str := logo.value
        match (if (bTokenIdx "data:".data str).isSome then bTokenIdx "base64,".data str else none) with
        | some idx =>
          -- line 474: everything after the `base64,` match is decoded
          let b64 := str.drop (idx + "base64,".data.length)
          match gz b64 with
          | some svg => .ok (.found pem altNames svg)
          | none => .error ()
        | none => .ok .notFound

/-! ## Theorems -/

/-! ### Claim C3: empty `p` vs missing `p` in a DKIM key record -/

/-- **C3, counterexample.**  The claim states that a key record whose `p`
tag is present but empty fails with a `revoked` permanent error that is
distinct from the `missing key` error raised when `p` is absent.  In the
code both cases take the same `if (!publicKey)` branch (tools.js lines
250-255, the empty string being falsy) and produce the *same* error:
code `EINVALIDVAL`, message `Missing key value`.  No revoked-specific
error exists. -/
theorem getPublicKey_empty_p_not_distinct :
    getPublicKey "DKIM".data [["v=DKIM1;p=".data]] none (fun _ => none) =
        .error (.coded "EINVALIDVAL".data "Missing key value".data (some "v=DKIM1;p=".data)) ∧
    getPublicKey "DKIM".data [["v=DKIM1".data]] none (fun _ => none) =
        .error (.coded "EINVALIDVAL".data "Missing key value".data (some "v=DKIM1".data)) :=
  ⟨rfl, rfl⟩

/-- **C3, amended.**  A nonempty key record whose `p` tag is missing *or*
present with an empty value fails with one and the same permanent error:
code `EINVALIDVAL`, message `Missing key value`, carrying the record in
`rr`.  The two failure cases are not distinguished. -/
theorem getPublicKey_missing_or_empty_p (ty : Str) (txt : List (List Str))
    (minB : Option Nat) (cpk : Str → Option KeyInfo)
    (hrr : (rrOfTxt txt).isEmpty = false)
    (hp : jsFalsyStr (List.lookup "p".data (parseTags ("DNS: TXT;".data ++ rrOfTxt txt))) = true) :
    getPublicKey ty txt minB cpk =
      .error (.coded "EINVALIDVAL".data "Missing key value".data (some (rrOfTxt txt))) := by
  unfold getPublicKey
  simp only [hrr, hp, Bool.false_eq_true, if_false, if_true, bind, Except.bind, pure,
    Except.pure]

/-- Witness for `getPublicKey_missing_or_empty_p` at the record `p=`. -/
theorem getPublicKey_missing_or_empty_p_witness :
    getPublicKey "DKIM".data [["p=".data]] none (fun _ => none) =
      .error (.coded "EINVALIDVAL".data "Missing key value".data (some "p=".data)) :=
  getPublicKey_missing_or_empty_p "DKIM".data [["p=".data]] none (fun _ => none)
    (by decide) (by decide)

/-! ### Claim C4: sub-1024-bit RSA keys -/

/-- **C4.**  The claim states that with strict mode not in effect a
sub-1024-bit RSA key is resolved to a usable key flagged as policy-weak
(`policy.dkim-rules=weak-key`, the behaviour the repository's own README
documents for the `test.small` fixture).  The code cannot produce that
result: for *any* record with a nonempty `p` tag — here a record whose key
material `crypto.createPublicKey` would report as 512-bit RSA, with
`minBitLength` left at its default — execution reaches the assignment to
the undeclared `publicKeyPem` (tools.js line 264) and, the file being in
strict mode, throws a `ReferenceError` before the key is ever constructed
or its length checked.  The theorem is universal in the `createPublicKey`
model precisely because the crypto library is never consulted. -/
theorem getPublicKey_weak_rsa_reference_error :
    ∀ cpk : Str → Option KeyInfo,
      getPublicKey "DKIM".data [["v=DKIM1;k=rsa;p=MEgCQQCo".data]] none cpk =
        .error (.referenceError "publicKeyPem is not defined".data) :=
  fun _ => rfl

/-! ### Claim C9: error codes and the normal return path -/

/-- **C9.**  The claim states that every error from `getPublicKey` carries
one of the codes `EINVALIDVAL`, `EINVALIDVER`, `EINVALIDTYPE`, `ESHORTKEY`,
and that a record with a valid Ed25519 (or ≥1024-bit RSA) key returns
`{ publicKey, rr }` normally, with no reference error from the undeclared
`publicKeyPem` assignment.  The code does the opposite: for the valid
Ed25519 record below (and any `createPublicKey` behaviour) it terminates
with a `ReferenceError`, which is not a normal return and carries none of
the documented codes. -/
theorem getPublicKey_valid_key_reference_error :
    ∀ cpk : Str → Option KeyInfo,
      getPublicKey "DKIM".data [["v=DKIM1;k=ed25519;p=MCowBQYDK2VwAyEAJQ".data]] none cpk =
        .error (.referenceError "publicKeyPem is not defined".data) :=
  fun _ => rfl

/-! ### Claim C5: TXT fragment concatenation -/

/-- **C5, counterexample.**  The claim states the key record handed to the
tag-list parser is the verbatim concatenation of the TXT fragments with no
whitespace removed.  tools.js line 243 applies `replace(/\s+/g, '')`, so
the record for the fragments `"v=DKIM1;p=AB"` and `" CD"` is
`"v=DKIM1;p=ABCD"`, not the verbatim `"v=DKIM1;p=AB CD"`. -/
theorem rrOfTxt_not_verbatim :
    rrOfTxt [["v=DKIM1;p=AB".data, " CD".data]] = "v=DKIM1;p=ABCD".data ∧
    rrOfTxt [["v=DKIM1;p=AB".data, " CD".data]] ≠ ("v=DKIM1;p=AB".data ++ " CD".data) := by
  exact ⟨by decide, by decide⟩

/-- **C5, amended.**  The record passed on to the parser is the
concatenation of the first TXT record's fragments with every whitespace
character removed — equivalently, each fragment whitespace-stripped and the
results concatenated. -/
theorem rrOfTxt_strips_all_whitespace (frags : List Str) (rest : List (List Str)) :
    rrOfTxt (frags :: rest) = (frags.map stripWS).flatten := by
  show stripWS frags.flatten = (frags.map stripWS).flatten
  induction frags with
  | nil => rfl
  | cons f fs ih =>
    simp only [List.flatten_cons, List.map_cons, stripWS, List.filter_append] at *
    rw [ih]

/-! ### Claim C6: the `Received-SPF` header -/

/-- **C6, counterexample.**  The claim states the header has the form
`Received-SPF: <status>[ (<comment>)] client-ip=<ip>;
envelope-from="<sender>"; helo=<helo>;` (plus `rr=` when available).  For
an evaluation with sender `a@b.com`, helo `helo.host` and client IP
`1.2.3.4`, `formatHeaders` (report.js lines 81-87) emits only
`Received-SPF: pass (ok) client-ip=1.2.3.4;`: the logical line differs from
the claimed form and contains no `envelope-from=`, no `helo=` and no `rr=`
(the 160-column fold applied afterwards only inserts line breaks at
existing whitespace). -/
theorem formatHeaders_no_envelope_from :
    formatHeadersCore ⟨⟨"pass".data, some "ok".data⟩, "1.2.3.4".data⟩ =
        "Received-SPF: pass (ok) client-ip=1.2.3.4;".data ∧
    formatHeadersCore ⟨⟨"pass".data, some "ok".data⟩, "1.2.3.4".data⟩ ≠
        claimedReceivedSpfForm "pass".data (some "ok".data) "1.2.3.4".data
          "a@b.com".data "helo.host".data none ∧
    containsSub "envelope-from=".data
        (formatHeadersCore ⟨⟨"pass".data, some "ok".data⟩, "1.2.3.4".data⟩) = false ∧
    containsSub "helo=".data
        (formatHeadersCore ⟨⟨"pass".data, some "ok".data⟩, "1.2.3.4".data⟩) = false := by
  refine ⟨by decide, by decide, by decide, by decide⟩

/-- **C6, amended.**  The emitted `Received-SPF` header is the single
logical line `Received-SPF: <status>[ (<escaped comment>)] client-ip=<ip>;`
passed through the external 160-column folder; the envelope sender, the
helo name and the matched record are not part of the header. -/
theorem formatHeaders_amended_form (fold160 : Str → Str) (r : SpfResponseView) :
    formatHeaders fold160 r =
      fold160 (amendedReceivedSpfForm r.status.result r.status.comment r.clientIp) := rfl

/-! ### Claim C2: alignment (`getAligment`) — helper lemmas and theorems -/

theorem isJsWS_false_of_toNat (c : Char) (h : 33 ≤ c.toNat) : isJsWS c = false := by
  have ne : ∀ d : Char, d.toNat < 33 → (c == d) = false := fun d hd =>
    beq_eq_false_iff_ne.mpr (fun e => by subst e; omega)
  simp [isJsWS, ne ' ' (by decide), ne '\t' (by decide), ne '\n' (by decide),
    ne '\r' (by decide), ne '\x0b' (by decide), ne '\x0c' (by decide)]

theorem isJsWS_lowerChar (c : Char) : isJsWS (lowerChar c) = isJsWS c := by
  by_cases h : 65 ≤ c.toNat ∧ c.toNat ≤ 90
  · rw [show lowerChar c = Char.ofNatAux (c.toNat + 32) (Or.inl (by omega)) from by
      unfold lowerChar; exact dif_pos h]
    rw [isJsWS_false_of_toNat (Char.ofNatAux (c.toNat + 32) (Or.inl (by omega)))
        (by show 33 ≤ c.toNat + 32; omega),
      isJsWS_false_of_toNat c (by omega)]
  · rw [show lowerChar c = c from by unfold lowerChar; exact dif_neg h]

theorem lowerChar_lowerChar (c : Char) : lowerChar (lowerChar c) = lowerChar c := by
  by_cases h : 65 ≤ c.toNat ∧ c.toNat ≤ 90
  · rw [show lowerChar c = Char.ofNatAux (c.toNat + 32) (Or.inl (by omega)) from by
      unfold lowerChar; exact dif_pos h]
    unfold lowerChar
    rw [dif_neg]
    intro hh
    have he : (Char.ofNatAux (c.toNat + 32) (Or.inl (by omega))).toNat = c.toNat + 32 := rfl
    omega
  · rw [show lowerChar c = c from by unfold lowerChar; exact dif_neg h]
    unfold lowerChar
    exact dif_neg h

theorem lowerStr_lowerStr (l : Str) : lowerStr (lowerStr l) = lowerStr l := by
  unfold lowerStr
  rw [List.map_map]
  exact List.map_congr_left fun c _ => lowerChar_lowerChar c

theorem dropWhile_dropWhile (p : Char → Bool) (l : Str) :
    (l.dropWhile p).dropWhile p = l.dropWhile p := by
  induction l with
  | nil => rfl
  | cons c t ih => by_cases h : p c <;> simp [List.dropWhile_cons, h, ih]

theorem trimLeft_trimLeft (l : Str) : trimLeft (trimLeft l) = trimLeft l :=
  dropWhile_dropWhile isJsWS l

theorem trimRight_trimRight (l : Str) : trimRight (trimRight l) = trimRight l := by
  simp [trimRight, List.reverse_reverse, dropWhile_dropWhile]

theorem trimLeft_trimRight (m : Str) (h : trimLeft m = m) :
    trimLeft (trimRight m) = trimRight m := by
  cases m with
  | nil => rfl
  | cons c t =>
    have hc : isJsWS c = false := by
      by_contra hcc
      rw [Bool.not_eq_false] at hcc
      have hlen := congrArg List.length h
      simp only [trimLeft, List.dropWhile_cons, hcc, if_true, List.length_cons] at hlen
      have hle := (List.dropWhile_sublist (l := t) isJsWS).length_le
      omega
    show trimLeft (((c :: t).reverse.dropWhile isJsWS).reverse) = _
    rw [List.reverse_cons, List.dropWhile_append]
    by_cases he : (t.reverse.dropWhile isJsWS).isEmpty = true
    · rw [if_pos he]
      simp [trimLeft, trimRight, List.dropWhile_cons, hc, List.reverse_cons,
        List.dropWhile_append, he]
    · rw [if_neg he, List.reverse_append]
      simp [trimLeft, trimRight, List.dropWhile_cons, hc, List.reverse_cons,
        List.dropWhile_append, he]

theorem trimStr_trimStr (l : Str) : trimStr (trimStr l) = trimStr l := by
  show trimRight (trimLeft (trimRight (trimLeft l))) = trimRight (trimLeft l)
  rw [trimLeft_trimRight (trimLeft l) (trimLeft_trimLeft l), trimRight_trimRight]

theorem trimLeft_lowerStr (l : Str) : trimLeft (lowerStr l) = lowerStr (trimLeft l) := by
  show (l.map lowerChar).dropWhile isJsWS = (l.dropWhile isJsWS).map lowerChar
  rw [List.dropWhile_map]
  congr 1
  congr 1
  funext c
  simp [Function.comp, isJsWS_lowerChar]

theorem trimRight_lowerStr (l : Str) : trimRight (lowerStr l) = lowerStr (trimRight l) := by
  show ((l.map lowerChar).reverse.dropWhile isJsWS).reverse =
    ((l.reverse.dropWhile isJsWS).reverse).map lowerChar
  rw [← List.map_reverse, List.dropWhile_map, ← List.map_reverse]
  congr 2
  congr 1
  funext c
  simp [Function.comp, isJsWS_lowerChar]

theorem trimStr_lowerStr (l : Str) : trimStr (lowerStr l) = lowerStr (trimStr l) := by
  show trimRight (trimLeft (lowerStr l)) = _
  rw [trimLeft_lowerStr, trimRight_lowerStr]
  rfl

theorem formatDomain_idem (l : Str) : formatDomain (formatDomain l) = formatDomain l := by
  show trimStr (lowerStr (trimStr (lowerStr l))) = trimStr (lowerStr l)
  rw [← trimStr_lowerStr (lowerStr l), lowerStr_lowerStr, trimStr_trimStr]

/-- Every comparison path of `getAligment` reduces a candidate to
`formatDomain(psl.get(domain) || domain)`, which is a `formatDomain`
fixed point. -/
theorem formatDomain_orgDomain (d : Str) : formatDomain (orgDomain d) = orgDomain d :=
  formatDomain_idem _

/-- A definitional restatement of `orgDomain` used for rewriting. -/
theorem orgDomain_def (d : Str) : orgDomain d = formatDomain ((pslGet d).getD d) := rfl

/-- The organizational-domain loop of `getAligment` (lines 414-421)
produces a value iff some candidate's organizational domain equals `fd`. -/
theorem alignScanOrg_isSome (fd : Str) (L : List Str) :
    (alignScanOrg fd L).isSome = true ↔ ∃ d ∈ L, orgDomain d = fd := by
  induction L with
  | nil => simp [alignScanOrg]
  | cons a t ih =>
    by_cases h : orgDomain a = fd
    · have hb : (formatDomain ((pslGet a).getD a) == fd) = true :=
        beq_iff_eq.mpr ((orgDomain_def a) ▸ h)
      simp only [alignScanOrg, hb, if_true, Option.isSome_some]
      exact iff_of_true trivial ⟨a, List.mem_cons_self a t, h⟩
    · have hb : (formatDomain ((pslGet a).getD a) == fd) = false :=
        beq_eq_false_iff_ne.mpr ((orgDomain_def a) ▸ h)
      simp only [alignScanOrg, hb, Bool.false_eq_true, if_false]
      rw [ih]
      constructor
      · rintro ⟨d, hd, hfd⟩
        exact ⟨d, List.mem_cons_of_mem a hd, hfd⟩
      · rintro ⟨d, hd, hfd⟩
        rcases List.mem_cons.mp hd with rfl | hd
        · exact absurd hfd h
        · exact ⟨d, hd, hfd⟩

/-- The strict loop of `getAligment` (lines 404-412): because each
candidate is reduced to its organizational domain *before* the comparison,
the loop produces a value iff some candidate's organizational domain
equals `fd` (for a `formatDomain`-fixed `fd`, in particular any
`formatDomain` image). -/
theorem alignScanStrict_isSome (fd : Str) (L : List Str) :
    (alignScanStrict fd L).isSome = true ↔ ∃ d ∈ L, orgDomain d = fd := by
  induction L with
  | nil => simp [alignScanStrict]
  | cons a t ih =>
    by_cases h : orgDomain a = fd
    · have hb : (formatDomain (formatDomain ((pslGet a).getD a)) == fd) = true := by
        rw [beq_iff_eq, formatDomain_idem, ← orgDomain_def]
        exact h
      simp only [alignScanStrict, hb, if_true, Option.isSome_some]
      exact iff_of_true trivial ⟨a, List.mem_cons_self a t, h⟩
    · have hb : (formatDomain (formatDomain ((pslGet a).getD a)) == fd) = false := by
        rw [beq_eq_false_iff_ne, formatDomain_idem, ← orgDomain_def]
        exact h
      simp only [alignScanStrict, hb, Bool.false_eq_true, if_false]
      rw [ih]
      constructor
      · rintro ⟨d, hd, hfd⟩
        exact ⟨d, List.mem_cons_of_mem a hd, hfd⟩
      · rintro ⟨d, hd, hfd⟩
        rcases List.mem_cons.mp hd with rfl | hd
        · exact absurd hfd h
        · exact ⟨d, hd, hfd⟩

/-- **C2, counterexample.**  The claim states that in strict mode
`getAligment` returns a non-false result *only if* some candidate is
identical to the From domain after normalization.  With From domain
`example.com` and candidate list `[mail.example.com]`, strict mode returns
`example.com` (the strict loop compares the candidate's *organizational*
domain), although the only candidate normalizes to `mail.example.com`,
which is not identical to the From domain. -/
theorem getAligment_strict_not_identical :
    getAligment "example.com".data ["mail.example.com".data] true =
        some "example.com".data ∧
    formatDomain "mail.example.com".data ≠ formatDomain "example.com".data := by
  exact ⟨by decide, by decide⟩

/-- **C2, amended.**  Relaxed mode (strict unset) returns a non-false
result iff some candidate shares the From domain's organizational domain.
Strict mode compares each candidate's *organizational* domain with the
(normalized) From domain and, when that loop finds nothing, falls through
to relaxed organizational matching: it returns a non-false result iff some
candidate's organizational domain equals the normalized From domain, or
some candidate shares the normalized From domain's organizational
domain. -/
theorem getAligment_characterization (F : Str) (L : List Str) :
    ((getAligment F L false).isSome = true ↔ ∃ d ∈ L, orgDomain d = orgDomain F) ∧
    ((getAligment F L true).isSome = true ↔
      ((∃ d ∈ L, orgDomain d = formatDomain F) ∨
        ∃ d ∈ L, orgDomain d = orgDomain (formatDomain F))) := by
  constructor
  · exact alignScanOrg_isSome (orgDomain F) L
  · have hmain : getAligment F L true =
        (match alignScanStrict (formatDomain F) L with
          | some d => some d
          | none => alignScanOrg (orgDomain (formatDomain F)) L) := rfl
    rw [hmain]
    cases hs : alignScanStrict (formatDomain F) L with
    | some d =>
      refine iff_of_true rfl (Or.inl ?_)
      have := (alignScanStrict_isSome (formatDomain F) L).mp
      rw [hs] at this
      exact this rfl
    | none =>
      have hnone : ¬∃ d ∈ L, orgDomain d = formatDomain F := by
        intro hex
        have := (alignScanStrict_isSome (formatDomain F) L).mpr hex
        rw [hs] at this
        exact Bool.false_ne_true this
      rw [alignScanOrg_isSome (orgDomain (formatDomain F)) L]
      constructor
      · exact Or.inr
      · rintro (hA | hB)
        · exact absurd hA hnone
        · exact hB

/-! ### Claim C8: relaxed header canonicalization — helper lemmas and
theorem -/

theorem removeLineBreaks_cons_of (c : Char) (t : Str) (h1 : c ≠ '\n') (h2 : c ≠ '\r') :
    removeLineBreaks (c :: t) = c :: removeLineBreaks t := by
  rw [removeLineBreaks.eq_def]
  split <;> simp_all

theorem removeLineBreaks_append (a b : Str) (ha : ∀ c ∈ a, c ≠ '\n' ∧ c ≠ '\r') :
    removeLineBreaks (a ++ b) = a ++ removeLineBreaks b := by
  induction a with
  | nil => rfl
  | cons c t ih =>
    rw [List.cons_append,
      removeLineBreaks_cons_of c (t ++ b) (ha c (List.mem_cons_self c t)).1
        (ha c (List.mem_cons_self c t)).2,
      ih (fun d hd => ha d (List.mem_cons_of_mem c hd))]
    rfl

theorem dropWhile_of_all_false {p : Char → Bool} (l : Str) (h : ∀ c ∈ l, p c = false) :
    l.dropWhile p = l := by
  cases l with
  | nil => rfl
  | cons c t =>
    rw [List.dropWhile_cons, h c (List.mem_cons_self c t)]
    simp

theorem trimStr_of_wsFree (l : Str) (h : ∀ c ∈ l, isJsWS c = false) : trimStr l = l := by
  show trimRight (trimLeft l) = l
  rw [show trimLeft l = l from dropWhile_of_all_false l h]
  show (l.reverse.dropWhile isJsWS).reverse = l
  rw [dropWhile_of_all_false l.reverse (fun c hc => h c (List.mem_reverse.mp hc)),
    List.reverse_reverse]

theorem takeWhile_append_eq {p : Char → Bool} (a : Str) (c : Char) (b : Str)
    (ha : ∀ x ∈ a, p x = true) (hc : p c = false) :
    (a ++ c :: b).takeWhile p = a ∧ (a ++ c :: b).dropWhile p = c :: b := by
  induction a with
  | nil => simp [List.takeWhile_cons, List.dropWhile_cons, hc]
  | cons x t ih =>
    have hx : p x = true := ha x (List.mem_cons_self x t)
    have iha := ih (fun y hy => ha y (List.mem_cons_of_mem x hy))
    simp only [List.cons_append, List.takeWhile_cons, List.dropWhile_cons, hx, if_true]
    exact ⟨by rw [iha.1], by rw [iha.2]⟩

theorem replaceRunsAux_false_append (p : Char → Bool) (rep : Char) (a b : Str)
    (ha : ∀ c ∈ a, p c = false) :
    replaceRunsAux p rep false (a ++ b) = a ++ replaceRunsAux p rep false b := by
  induction a with
  | nil => rfl
  | cons c t ih =>
    rw [List.cons_append]
    simp only [replaceRunsAux, ha c (List.mem_cons_self c t), Bool.false_eq_true, if_false]
    rw [ih (fun d hd => ha d (List.mem_cons_of_mem c hd))]
    rfl

/-- Collapsing after dropping a leading run equals collapsing with the
in-run flag set and then dropping the produced leading characters. -/
theorem replaceRunsAux_dropWhile (p : Char → Bool) (rep : Char) (w : Str) :
    replaceRunsAux p rep false (w.dropWhile p) = (replaceRunsAux p rep true w).dropWhile p := by
  induction w with
  | nil => rfl
  | cons c t ih =>
    by_cases h : p c = true
    · rw [List.dropWhile_cons, if_pos h]
      simp only [replaceRunsAux, h, if_true]
      exact ih
    · rw [Bool.not_eq_true] at h
      simp only [List.dropWhile_cons, h, Bool.false_eq_true, if_false, replaceRunsAux]

theorem replaceRunsAux_true_false_dropWhile (p : Char → Bool) (rep : Char)
    (hrep : p rep = true) (w : Str) :
    (replaceRunsAux p rep true w).dropWhile p = (replaceRunsAux p rep false w).dropWhile p := by
  cases w with
  | nil => rfl
  | cons c t =>
    by_cases h : p c = true
    · simp only [replaceRunsAux, h, if_true, Bool.false_eq_true, if_false,
        List.dropWhile_cons, hrep]
    · rw [Bool.not_eq_true] at h
      simp only [replaceRunsAux, h, Bool.false_eq_true, if_false]

theorem collapseWS_dropWhile_eq_trimLeft (w : Str) :
    collapseWS (w.dropWhile isJsWS) = trimLeft (collapseWS w) := by
  show replaceRunsAux isJsWS ' ' false (w.dropWhile isJsWS) =
    (replaceRunsAux isJsWS ' ' false w).dropWhile isJsWS
  rw [replaceRunsAux_dropWhile,
    replaceRunsAux_true_false_dropWhile isJsWS ' ' (by decide) w]

theorem trimRight_append_nonws (a b : Str) (x : Char) (hx : isJsWS x = false) :
    trimRight ((a ++ [x]) ++ b) = (a ++ [x]) ++ trimRight b := by
  show (((a ++ [x]) ++ b).reverse.dropWhile isJsWS).reverse = _
  rw [List.reverse_append, List.dropWhile_append]
  by_cases he : (b.reverse.dropWhile isJsWS).isEmpty = true
  · rw [if_pos he]
    have hrev : (a ++ [x]).reverse = x :: a.reverse := by
      rw [List.reverse_append, List.reverse_singleton]
      rfl
    rw [hrev, List.dropWhile_cons, hx]
    simp only [Bool.false_eq_true, if_false]
    rw [← hrev, List.reverse_reverse]
    have hb : trimRight b = [] := by
      show (b.reverse.dropWhile isJsWS).reverse = []
      rw [List.isEmpty_iff.mp he]
      rfl
    rw [hb, List.append_nil]
  · rw [if_neg he, List.reverse_append, List.reverse_reverse]
    rfl

/-- **C8.**  For every header line `key ++ ":" ++ value` whose key is
nonempty and contains neither whitespace nor a colon, the relaxed
canonicalization (with the `\r\n` suffix its caller supplies) lowercases
the key, keeps a single colon with no whitespace around it, removes the
CRLFs inside the value (unfolding), collapses every whitespace run to one
space, trims the value, and terminates the line with CRLF. -/
theorem formatRelaxedLine_relaxed_canon (key value : Str) (hne : key ≠ [])
    (hkey : ∀ c ∈ key, isJsWS c = false ∧ c ≠ ':') :
    formatRelaxedLine (key ++ ':' :: value) "\r\n".data =
      lowerStr key ++ ':' :: trimStr (collapseWS (removeLineBreaks value)) ++ "\r\n".data := by
  have hwsf : ∀ c ∈ key, isJsWS c = false := fun c hc => (hkey c hc).1
  have hnb : ∀ c ∈ key, c ≠ '\n' ∧ c ≠ '\r' := by
    intro c hc
    have hws := hwsf c hc
    exact ⟨fun e => by rw [e] at hws; exact absurd hws (by decide),
      fun e => by rw [e] at hws; exact absurd hws (by decide)⟩
  have hlky : ∀ c ∈ lowerStr key, isJsWS c = false := by
    intro c hc
    rcases List.mem_map.mp hc with ⟨d, hd, rfl⟩
    rw [isJsWS_lowerChar]
    exact hwsf d hd
  -- step 1: unfolding distributes over the key and the colon
  have s1 : removeLineBreaks (key ++ ':' :: value) =
      key ++ ':' :: removeLineBreaks value := by
    rw [removeLineBreaks_append key (':' :: value) hnb,
      removeLineBreaks_cons_of ':' value (by decide) (by decide)]
  -- step 2: the key replacement
  have htk := takeWhile_append_eq (p := fun c => c != ':') key ':' (removeLineBreaks value)
    (fun x hx => bne_iff_ne.mpr (hkey x hx).2) (by decide)
  have s2 : relaxedKeyReplace (key ++ ':' :: removeLineBreaks value) =
      lowerStr key ++ ':' :: (removeLineBreaks value).dropWhile isJsWS := by
    unfold relaxedKeyReplace
    rw [htk.2]
    show trimStr (lowerStr ((key ++ ':' :: removeLineBreaks value).takeWhile (fun c => c != ':')))
        ++ ':' :: (removeLineBreaks value).dropWhile isJsWS = _
    rw [htk.1, trimStr_of_wsFree _ hlky]
  -- step 3: whitespace collapse distributes over the whitespace-free prefix
  have s3 : collapseWS (lowerStr key ++ ':' :: (removeLineBreaks value).dropWhile isJsWS) =
      lowerStr key ++ ':' :: collapseWS ((removeLineBreaks value).dropWhile isJsWS) := by
    rw [List.append_cons (lowerStr key) ':' ((removeLineBreaks value).dropWhile isJsWS)]
    show replaceRunsAux isJsWS ' ' false
        ((lowerStr key ++ [':']) ++ (removeLineBreaks value).dropWhile isJsWS) = _
    rw [replaceRunsAux_false_append isJsWS ' ' (lowerStr key ++ [':']) _
      (by
        intro c hc
        rcases List.mem_append.mp hc with hc | hc
        · exact hlky c hc
        · rw [List.mem_singleton.mp hc]; decide)]
    rw [← List.append_cons]
    rfl
  -- step 4: the outer trim keeps the key and the colon and trims the value
  unfold formatRelaxedLine
  rw [s1, s2, s3, collapseWS_dropWhile_eq_trimLeft]
  have hkne : lowerStr key ≠ [] := by
    intro hk
    exact absurd (List.map_eq_nil_iff.mp hk) hne
  have h4 : trimLeft (lowerStr key ++ ':' :: trimLeft (collapseWS (removeLineBreaks value))) =
      lowerStr key ++ ':' :: trimLeft (collapseWS (removeLineBreaks value)) := by
    cases hk : lowerStr key with
    | nil => exact absurd hk hkne
    | cons c t =>
      have hc : isJsWS c = false := hlky c (hk ▸ List.mem_cons_self c t)
      show List.dropWhile isJsWS ((c :: t) ++ _) = _
      rw [List.cons_append, List.dropWhile_cons, hc]
      simp
  show trimRight (trimLeft (lowerStr key ++ ':' :: trimLeft (collapseWS (removeLineBreaks value))))
      ++ "\r\n".data = _
  rw [h4, List.append_cons (lowerStr key) ':' (trimLeft (collapseWS (removeLineBreaks value))),
    trimRight_append_nonws (lowerStr key) _ ':' (by decide)]
  show ((lowerStr key ++ [':']) ++ trimStr (collapseWS (removeLineBreaks value)))
      ++ "\r\n".data = _
  rw [← List.append_cons]

/-- Witness for `formatRelaxedLine_relaxed_canon` on a folded `Subject`
header line. -/
theorem formatRelaxedLine_relaxed_canon_witness :
    formatRelaxedLine ("Subject".data ++ ':' :: " Foo  bar \r\n baz ".data) "\r\n".data =
      lowerStr "Subject".data ++ ':' ::
        trimStr (collapseWS (removeLineBreaks " Foo  bar \r\n baz ".data)) ++ "\r\n".data :=
  formatRelaxedLine_relaxed_canon "Subject".data " Foo  bar \r\n baz ".data
    (by decide) (by decide)

/-! ### Claim C1: the SPF lookup budget — helper lemmas and theorem -/

theorem containsSub_append_right (needle a b : Str) (h : containsSub needle b = true) :
    containsSub needle (a ++ b) = true := by
  induction a with
  | nil => simpa using h
  | cons c t ih =>
    show (needle.isPrefixOf (c :: (t ++ b)) || containsSub needle (t ++ b)) = true
    rw [ih]
    simp

/-- Per-call facts about the limited resolver: the counter never decreases,
and whenever the underlying resolver was consulted the call had incremented
the counter to a value still within the limit. -/
theorem lrStep_spec (resolver : Str → Str → DnsResp) (max count : Nat)
    (d : Option Str) (ty : Str) :
    count ≤ (lrStep resolver max count d ty).count ∧
    ((lrStep resolver max count d ty).usedUnderlying = true →
      (lrStep resolver max count d ty).count = count + 1 ∧
      (lrStep resolver max count d ty).count ≤ max) := by
  unfold lrStep
  by_cases h1 : (jsFalsyStr d && ty == "resolveCount".data) = true
  · simp only [h1, if_true]
    exact ⟨le_refl _, by simp⟩
  · rw [Bool.not_eq_true] at h1
    simp only [h1, Bool.false_eq_true, if_false]
    by_cases h2 : (jsFalsyStr d && ty == "resolveLimit".data) = true
    · simp only [h2, if_true]
      exact ⟨le_refl _, by simp⟩
    · rw [Bool.not_eq_true] at h2
      simp only [h2, Bool.false_eq_true, if_false]
      by_cases h3 : max < count + 1
      · simp only [if_pos h3]
        exact ⟨Nat.le_succ count, by simp⟩
      · simp only [if_neg h3]
        by_cases h4 : (!validSpfDomain (d.getD [])) = true
        · simp only [h4, if_true]
          exact ⟨Nat.le_succ count, by simp⟩
        · rw [Bool.not_eq_true] at h4
          simp only [h4, Bool.false_eq_true, if_false]
          cases hr : resolver (d.getD []) ty with
          | ok rs =>
            exact ⟨Nat.le_succ count, fun _ => ⟨rfl, show count + 1 ≤ max by omega⟩⟩
          | err code =>
            by_cases h5 : (code == "ENOTFOUND".data || code == "ENODATA".data) = true
            · simp only [h5, if_true]
              exact ⟨Nat.le_succ count, fun _ => ⟨by simp, show count + 1 ≤ max by omega⟩⟩
            · rw [Bool.not_eq_true] at h5
              simp only [h5, Bool.false_eq_true, if_false]
              by_cases h6 : (code == "ETIMEOUT".data) = true
              · simp only [h6, if_true]
                exact ⟨Nat.le_succ count, fun _ => ⟨by simp, show count + 1 ≤ max by omega⟩⟩
              · rw [Bool.not_eq_true] at h6
                simp only [h6, Bool.false_eq_true, if_false]
                exact ⟨Nat.le_succ count, fun _ => ⟨by simp, show count + 1 ≤ max by omega⟩⟩

theorem lrRun_cons (resolver : Str → Str → DnsResp) (max : Nat) (st : Nat × Nat)
    (q : Option Str × Str) (qs : List (Option Str × Str)) :
    lrRun resolver max st (q :: qs) =
      lrRun resolver max
        ((lrStep resolver max st.1 q.1 q.2).count,
          st.2 + (if (lrStep resolver max st.1 q.1 q.2).usedUnderlying then 1 else 0)) qs := rfl

theorem lrRun_invariant (resolver : Str → Str → DnsResp) (max : Nat)
    (qs : List (Option Str × Str)) :
    ∀ st : Nat × Nat, st.2 ≤ st.1 → st.2 ≤ max → (lrRun resolver max st qs).2 ≤ max := by
  induction qs with
  | nil => exact fun st _ h2 => h2
  | cons q qs ih =>
    intro st h1 h2
    rw [lrRun_cons]
    rcases lrStep_spec resolver max st.1 q.1 q.2 with ⟨hge, hused⟩
    by_cases hu : (lrStep resolver max st.1 q.1 q.2).usedUnderlying = true
    · rcases hused hu with ⟨heq, hle⟩
      refine ih _ ?_ ?_ <;> simp [hu] <;> omega
    · rw [Bool.not_eq_true] at hu
      refine ih _ ?_ ?_ <;> simp [hu] <;> omega

/-- **C1.**  The SPF evaluation's DNS budget, report.js lines 79-151 and
196-307: (1) an absent `maxResolveCount` option defaults the limit to
`MAX_RESOLVE_COUNT = 50`; (2) every resolver call other than the special
`resolveCount`/`resolveLimit` queries increments the per-evaluation
counter; (3) across any sequence of calls the underlying resolver is
invoked at most the limit many times; (4) the first call that would push
the counter beyond the limit does not consult the underlying resolver and
throws the `spfResult` `{ error: 'permerror', text: 'Too many DNS
requests' }`; (5) `verify` turns exactly that `spfResult` into a final
status whose `result` is `permerror` and whose comment mentions
`Too many DNS requests`. -/
theorem spf_lookup_budget :
    (effectiveMaxResolveCount none = 50) ∧
    (∀ (resolver : Str → Str → DnsResp) (max count : Nat) (d : Option Str) (ty : Str),
      (jsFalsyStr d && ty == "resolveCount".data) = false →
      (jsFalsyStr d && ty == "resolveLimit".data) = false →
      (lrStep resolver max count d ty).count = count + 1) ∧
    (∀ (resolver : Str → Str → DnsResp) (maxOpt : Option Nat)
        (qs : List (Option Str × Str)),
      (lrRun resolver (effectiveMaxResolveCount maxOpt) (0, 0) qs).2 ≤
        effectiveMaxResolveCount maxOpt) ∧
    (∀ (resolver : Str → Str → DnsResp) (max count : Nat) (d : Option Str) (ty : Str),
      (jsFalsyStr d && ty == "resolveCount".data) = false →
      (jsFalsyStr d && ty == "resolveLimit".data) = false →
      max ≤ count →
      lrStep resolver max count d ty =
        ⟨count + 1, .spfErr "permerror".data "Too many DNS requests".data, false⟩) ∧
    (∀ mta sender ip domain : Str,
      verifyStatus mta sender ip domain
          ⟨none, some "permerror".data, some "Too many DNS requests".data⟩ =
        ("permerror".data,
          mta ++ ": permanent error in processing during lookup of ".data ++ sender ++
            (": ".data ++ "Too many DNS requests".data)) ∧
      containsSub "Too many DNS requests".data
        (verifyStatus mta sender ip domain
          ⟨none, some "permerror".data, some "Too many DNS requests".data⟩).2 = true) := by
  refine ⟨rfl, ?_, ?_, ?_, ?_⟩
  · intro resolver max count d ty h1 h2
    unfold lrStep
    rw [h1, h2]
    simp only [Bool.false_eq_true, if_false]
    repeat' split
    all_goals rfl
  · intro resolver maxOpt qs
    exact lrRun_invariant resolver (effectiveMaxResolveCount maxOpt) qs (0, 0)
      (le_refl 0) (Nat.zero_le _)
  · intro resolver max count d ty h1 h2 hmax
    unfold lrStep
    rw [h1, h2]
    simp only [Bool.false_eq_true, if_false]
    rw [if_pos (by omega : max < count + 1)]
  · intro mta sender ip domain
    constructor
    · rfl
    · exact containsSub_append_right "Too many DNS requests".data
        (mta ++ ": permanent error in processing during lookup of ".data ++ sender)
        (": ".data ++ "Too many DNS requests".data) (by decide)

/-- Witness for `spf_lookup_budget`: the call that takes the counter from
50 to 51 under the default limit throws the permerror, and a plain `TXT`
query increments the counter. -/
theorem spf_lookup_budget_witness :
    lrStep (fun _ _ => .ok []) 50 50 (some "example.com".data) "TXT".data =
      ⟨51, .spfErr "permerror".data "Too many DNS requests".data, false⟩ ∧
    (lrStep (fun _ _ => .ok []) 50 3 (some "example.com".data) "TXT".data).count = 4 := by
  constructor
  · exact spf_lookup_budget.2.2.2.1 (fun _ _ => .ok []) 50 50 (some "example.com".data)
      "TXT".data (by decide) (by decide) (by decide)
  · exact spf_lookup_budget.2.1 (fun _ _ => .ok []) 50 3 (some "example.com".data)
      "TXT".data (by decide) (by decide)

/-! ### Claim C10: `parseLogoFromX509` error behaviour -/

/-- **C10, counterexample.**  The claim states the function returns `false`
rather than raising an error when the logotype extension's value contains
no `data:…;base64,` URI.  The guard on line 472 only tests the two regexes
`/\bdata:/` and `/\bbase64,/` independently: for the extension value
`data:x base64,AAAA` — which contains no `data:…;base64,` URI (there is no
`;base64,` anywhere in it) — both tests succeed, the bytes after `base64,`
are base64-decoded and handed to `zlib.gunzip`, and since they are not
gzip data (`AAAA` decodes to three zero bytes, not the `1f 8b` gzip magic,
which is what the `gz` instance below models) the promise rejects instead
of resolving to `false`. -/
theorem parseLogoFromX509_raises_without_data_uri :
    parseLogoFromX509 (fun _ => none) "PEM".data
        ⟨[⟨"2.5.29.17".data, [], some [⟨some "x.com".data⟩]⟩,
          ⟨"1.3.6.1.5.5.7.1.12".data, "data:x base64,AAAA".data, none⟩]⟩ = .error () ∧
    containsSub ";base64,".data "data:x base64,AAAA".data = false :=
  ⟨rfl, by decide⟩

/-- **C10, amended.**  `parseLogoFromX509` returns `false` when the
certificate carries no subjectAltName dNSNames, when the logotype
extension `1.3.6.1.5.5.7.1.12` is missing or empty, or when the extension
value lacks a word-bounded `data:` token or a word-bounded `base64,` token
(the two tokens are tested independently and need not form one URI).  It
returns a `{ pem, altNames, svg }` object only when dNSNames are present,
the logotype extension is nonempty, both tokens are present, and
decompressing the base64 payload after the first `base64,` match succeeds;
when the decompression fails the error propagates. -/
theorem parseLogoFromX509_amended (gz : Str → Option Str) (pem : Str) (cert : X509Cert) :
    ((certAltNames cert).isEmpty = true → parseLogoFromX509 gz pem cert = .ok .notFound) ∧
    ((certAltNames cert).isEmpty = false → certLogoExt cert = none →
      parseLogoFromX509 gz pem cert = .ok .notFound) ∧
    (∀ logo, (certAltNames cert).isEmpty = false → certLogoExt cert = some logo →
      logo.value.isEmpty = false →
      ((bTokenIdx "data:".data logo.value).isSome = false ∨
        bTokenIdx "base64,".data logo.value = none) →
      parseLogoFromX509 gz pem cert = .ok .notFound) ∧
    (∀ p a sv, parseLogoFromX509 gz pem cert = .ok (.found p a sv) →
      p = pem ∧ a = certAltNames cert ∧ (certAltNames cert).isEmpty = false ∧
      ∃ logo idx, certLogoExt cert = some logo ∧ logo.value.isEmpty = false ∧
        (bTokenIdx "data:".data logo.value).isSome = true ∧
        bTokenIdx "base64,".data logo.value = some idx ∧
        gz (logo.value.drop (idx + 7)) = some sv) := by
  refine ⟨?_, ?_, ?_, ?_⟩
  · intro hA
    simp [parseLogoFromX509, hA]
  · intro hA hL
    simp [parseLogoFromX509, hA, hL]
  · intro logo hA hL hV htok
    rcases htok with htok | htok
    · rw [Bool.eq_false_iff] at htok
      simp [parseLogoFromX509, hA, hL, hV, htok]
    · by_cases hd : (bTokenIdx "data:".data logo.value).isSome = true
      · simp [parseLogoFromX509, hA, hL, hV, hd, htok]
      · simp [parseLogoFromX509, hA, hL, hV, hd]
  · intro p a sv h
    by_cases hA : (certAltNames cert).isEmpty = true
    · simp [parseLogoFromX509, hA] at h
    · rw [Bool.not_eq_true] at hA
      cases hL : certLogoExt cert with
      | none => simp [parseLogoFromX509, hA, hL] at h
      | some logo =>
        by_cases hV : logo.value.isEmpty = true
        · simp [parseLogoFromX509, hA, hL, hV] at h
        · rw [Bool.not_eq_true] at hV
          by_cases hd : (bTokenIdx "data:".data logo.value).isSome = true
          · cases hb : bTokenIdx "base64,".data logo.value with
            | none => simp [parseLogoFromX509, hA, hL, hV, hd, hb] at h
            | some idx =>
              simp [parseLogoFromX509, hA, hL, hV, hd, hb] at h
              cases hg : gz (logo.value.drop (idx + 7)) with
              | none =>
                rw [hg] at h
                exact absurd h (by simp)
              | some svg =>
                rw [hg] at h
                simp only [Except.ok.injEq, LogoResult.found.injEq] at h
                obtain ⟨hp, ha, hs⟩ := h
                subst hp
                subst ha
                subst hs
                exact ⟨rfl, rfl, hA, logo, idx, rfl, hV, hd, hb, hg⟩
          · rw [Bool.not_eq_true] at hd
            simp [parseLogoFromX509, hA, hL, hV, hd] at h

/-- Witness for `parseLogoFromX509_amended`: the three `false`-returning
guards at concrete certificates. -/
theorem parseLogoFromX509_amended_witness :
    (parseLogoFromX509 (fun _ => none) "P".data ⟨[]⟩ = .ok .notFound) ∧
    (parseLogoFromX509 (fun _ => none) "P".data
        ⟨[⟨"2.5.29.17".data, [], some [⟨some "x.com".data⟩]⟩]⟩ = .ok .notFound) ∧
    (parseLogoFromX509 (fun _ => none) "P".data
        ⟨[⟨"2.5.29.17".data, [], some [⟨some "x.com".data⟩]⟩,
          ⟨"1.3.6.1.5.5.7.1.12".data, "no uri here".data, none⟩]⟩ = .ok .notFound) := by
  refine ⟨?_, ?_, ?_⟩
  · exact (parseLogoFromX509_amended (fun _ => none) "P".data ⟨[]⟩).1 (by decide)
  · exact (parseLogoFromX509_amended (fun _ => none) "P".data
      ⟨[⟨"2.5.29.17".data, [], some [⟨some "x.com".data⟩]⟩]⟩).2.1 (by decide) (by decide)
  · exact (parseLogoFromX509_amended (fun _ => none) "P".data
      ⟨[⟨"2.5.29.17".data, [], some [⟨some "x.com".data⟩]⟩,
        ⟨"1.3.6.1.5.5.7.1.12".data, "no uri here".data, none⟩]⟩).2.2.1
      ⟨"1.3.6.1.5.5.7.1.12".data, "no uri here".data, none⟩
      (by decide) (by decide) (by decide) (Or.inl (by decide))

/-! ### Claim C7: signature header emission — helper lemmas and theorem -/

theorem keyOrderingOf_nodup (ty : Str) : (keyOrderingOf ty).Nodup := by
  unfold keyOrderingOf
  repeat' split
  all_goals decide

theorem tagIdx_cons_self (k : Str) (t : List Str) : tagIdx (k :: t) k = 0 := by
  show (if (k == k) = true then 0 else tagIdx t k + 1) = 0
  exact if_pos (beq_iff_eq.mpr rfl)

theorem tagIdx_cons_ne (a k : Str) (t : List Str) (h : a ≠ k) :
    tagIdx (a :: t) k = tagIdx t k + 1 := by
  show (if (a == k) = true then 0 else tagIdx t k + 1) = tagIdx t k + 1
  exact if_neg (fun hb => h (beq_iff_eq.mp hb))

theorem tagIdx_inj (l : List Str) (a b : Str) (ha : a ∈ l) (hb : b ∈ l)
    (h : tagIdx l a = tagIdx l b) : a = b := by
  induction l with
  | nil => cases ha
  | cons x t ih =>
    by_cases hax : a = x
    · by_cases hbx : b = x
      · rw [hax, hbx]
      · rw [hax, tagIdx_cons_self, tagIdx_cons_ne x b t (fun e => hbx e.symm)] at h
        exact absurd h (by omega)
    · by_cases hbx : b = x
      · rw [hbx, tagIdx_cons_self, tagIdx_cons_ne x a t (fun e => hax e.symm)] at h
        exact absurd h (by omega)
      · rw [tagIdx_cons_ne x a t (fun e => hax e.symm),
          tagIdx_cons_ne x b t (fun e => hbx e.symm)] at h
        have ha2 : a ∈ t := by
          rcases List.mem_cons.mp ha with h2 | h2
          · exact absurd h2 hax
          · exact h2
        have hb2 : b ∈ t := by
          rcases List.mem_cons.mp hb with h2 | h2
          · exact absurd h2 hbx
          · exact h2
        exact ih ha2 hb2 (Nat.succ_injective h)

/-- In a duplicate-free list, earlier elements have smaller indices. -/
theorem pairwise_tagIdx_lt (l : List Str) (h : l.Nodup) :
    l.Pairwise (fun a b => tagIdx l a < tagIdx l b) := by
  induction l with
  | nil => exact List.Pairwise.nil
  | cons x t ih =>
    rcases List.nodup_cons.mp h with ⟨hx, ht⟩
    refine List.Pairwise.cons ?_ ?_
    · intro b hb
      have hbx : x ≠ b := fun e => hx (e ▸ hb)
      rw [tagIdx_cons_self, tagIdx_cons_ne x b t hbx]
      exact Nat.succ_pos _
    · refine List.Pairwise.imp_of_mem ?_ (ih ht)
      intro a b ha hb hab
      have hxa : x ≠ a := fun e => hx (e ▸ ha)
      have hxb : x ≠ b := fun e => hx (e ▸ hb)
      rw [tagIdx_cons_ne x a t hxa, tagIdx_cons_ne x b t hxb]
      exact Nat.succ_lt_succ hab

/-- The `.filter(…).sort((a, b) => ordering.indexOf(a) - ordering.indexOf(b))`
idiom: sorting a duplicate-free association list whose keys all come from a
duplicate-free `ordering` by index yields exactly `ordering` restricted to
the present keys. -/
theorem insertionSort_tagIdx_filter (ordering : List Str) (l : List (Str × JVal))
    (hOrd : ordering.Nodup) (hNodup : (l.map Prod.fst).Nodup)
    (hMem : ∀ kv ∈ l, kv.1 ∈ ordering) :
    (List.insertionSort
        (fun a b => tagIdx ordering a.1 ≤ tagIdx ordering b.1) l).map Prod.fst =
      ordering.filter (fun k => (l.map Prod.fst).contains k) := by
  haveI : IsTotal (Str × JVal)
      (fun a b => tagIdx ordering a.1 ≤ tagIdx ordering b.1) :=
    ⟨fun a b => Nat.le_total _ _⟩
  haveI : IsTrans (Str × JVal)
      (fun a b => tagIdx ordering a.1 ≤ tagIdx ordering b.1) :=
    ⟨fun a b c => Nat.le_trans⟩
  haveI : IsAntisymm Str (fun a b => tagIdx ordering a < tagIdx ordering b) :=
    ⟨fun a b h1 h2 => absurd (Nat.lt_trans h1 h2) (Nat.lt_irrefl _)⟩
  have hKeysMemOrd : ∀ k ∈ l.map Prod.fst, k ∈ ordering := by
    intro k hk
    rcases List.mem_map.mp hk with ⟨kv, hkv, rfl⟩
    exact hMem kv hkv
  have hperm : ((List.insertionSort
      (fun a b => tagIdx ordering a.1 ≤ tagIdx ordering b.1) l).map Prod.fst).Perm
      (l.map Prod.fst) :=
    (List.perm_insertionSort _ l).map Prod.fst
  have hRHSperm : (ordering.filter (fun k => (l.map Prod.fst).contains k)).Perm
      (l.map Prod.fst) := by
    refine List.perm_of_nodup_nodup_toFinset_eq (hOrd.filter _) hNodup ?_
    ext k
    simp only [List.mem_toFinset, List.mem_filter]
    constructor
    · rintro ⟨-, hc⟩
      simpa using hc
    · intro hk
      exact ⟨hKeysMemOrd k hk, by simpa using hk⟩
  have hsorted := List.sorted_insertionSort
    (fun a b => tagIdx ordering a.1 ≤ tagIdx ordering b.1) l
  have hsortedKeys : ((List.insertionSort
      (fun a b => tagIdx ordering a.1 ≤ tagIdx ordering b.1) l).map Prod.fst).Pairwise
      (fun a b => tagIdx ordering a ≤ tagIdx ordering b) :=
    List.pairwise_map.mpr hsorted
  have hLHSNodup : ((List.insertionSort
      (fun a b => tagIdx ordering a.1 ≤ tagIdx ordering b.1) l).map Prod.fst).Nodup :=
    hperm.nodup_iff.mpr hNodup
  have hLHSMem : ∀ k ∈ (List.insertionSort
      (fun a b => tagIdx ordering a.1 ≤ tagIdx ordering b.1) l).map Prod.fst,
      k ∈ ordering := fun k hk => hKeysMemOrd k (hperm.mem_iff.mp hk)
  have hLHSlt : ((List.insertionSort
      (fun a b => tagIdx ordering a.1 ≤ tagIdx ordering b.1) l).map Prod.fst).Pairwise
      (fun a b => tagIdx ordering a < tagIdx ordering b) := by
    refine List.Pairwise.imp_of_mem ?_ (hsortedKeys.and hLHSNodup)
    intro a b ha hb hab
    rcases hab with ⟨hle, hne⟩
    have hidx : tagIdx ordering a ≠ tagIdx ordering b := fun e =>
      hne (tagIdx_inj ordering a b (hLHSMem a ha) (hLHSMem b hb) e)
    omega
  have hRHSlt : (ordering.filter (fun k => (l.map Prod.fst).contains k)).Pairwise
      (fun a b => tagIdx ordering a < tagIdx ordering b) :=
    (pairwise_tagIdx_lt ordering hOrd).filter _
  exact List.eq_of_perm_of_sorted (hperm.trans hRHSperm.symm) hLHSlt hRHSlt

theorem rep75Aux_all (l : Str) (n : Nat) (h : l.length ≤ n) : rep75Aux l n = l := by
  induction l generalizing n with
  | nil => cases n <;> rfl
  | cons c t ih =>
    cases n with
    | zero => simp at h
    | succ m =>
      show c :: rep75Aux t m = c :: t
      rw [ih m (by simpa using h)]

theorem rep75Aux_append75 (a b : Str) (hb : b ≠ []) :
    ∀ n, a.length = n → rep75Aux (a ++ b) n = a ++ ' ' :: rep75Aux b 75 := by
  induction a with
  | nil =>
    intro n hn
    rw [show n = 0 from hn.symm]
    cases b with
    | nil => exact absurd rfl hb
    | cons c t => rfl
  | cons x a2 ih =>
    intro n hn
    rw [show n = a2.length + 1 from hn.symm]
    show x :: rep75Aux (a2 ++ b) a2.length = x :: (a2 ++ ' ' :: rep75Aux b 75)
    rw [ih a2.length rfl]

theorem chunk75_ne_nil (l : Str) (h : l ≠ []) : chunk75 l ≠ [] := by
  rw [chunk75, dif_neg h]
  split <;> simp

theorem intercalate_cons_of_ne (s a : Str) (L : List Str) (h : L ≠ []) :
    List.intercalate s (a :: L) = a ++ s ++ List.intercalate s L := by
  cases L with
  | nil => exact absurd rfl h
  | cons b M =>
    show a ++ (s ++ (List.intersperse s (b :: M)).flatten) = a ++ s ++ List.intercalate s (b :: M)
    rw [List.append_assoc]
    rfl

theorem trimLeft_cons_of (c : Char) (t : Str) (hc : isJsWS c = false) :
    trimLeft (c :: t) = c :: t := by
  show (c :: t).dropWhile isJsWS = c :: t
  rw [List.dropWhile_cons, hc]
  simp

theorem trimRight_ne_nil (c : Char) (t : Str) (hc : isJsWS c = false) :
    trimRight (c :: t) ≠ [] := by
  intro he
  have hrev : (c :: t).reverse.dropWhile isJsWS = [] := by
    have h2 := congrArg List.reverse he
    simp only [trimRight, List.reverse_reverse, List.reverse_nil] at h2
    exact h2
  have hmem : c ∈ (c :: t).reverse := List.mem_reverse.mpr (List.mem_cons_self c t)
  have h3 := List.dropWhile_eq_nil_iff.mp hrev c hmem
  rw [hc] at h3
  cases h3

theorem trimRight_append_of_ne (y X : Str) (h : trimRight X ≠ []) :
    trimRight (y ++ X) = y ++ trimRight X := by
  show ((y ++ X).reverse.dropWhile isJsWS).reverse = _
  rw [List.reverse_append, List.dropWhile_append]
  have hne : ¬((X.reverse.dropWhile isJsWS).isEmpty = true) := by
    intro he
    apply h
    show (X.reverse.dropWhile isJsWS).reverse = []
    rw [List.isEmpty_iff.mp he]
    rfl
  rw [if_neg hne, List.reverse_append, List.reverse_reverse]
  rfl

/-- `replace(/.{75}/g, '$& ').trim()` on a whitespace-free string splits it
into maximal 75-character segments joined by single spaces. -/
theorem foldSigB_intercalate_aux :
    ∀ (n : Nat) (l : Str), l.length ≤ n → (∀ c ∈ l, isJsWS c = false) →
      foldSigB l = List.intercalate [' '] (chunk75 l) := by
  intro n
  induction n with
  | zero =>
    intro l hl hws
    rw [List.eq_nil_of_length_eq_zero (Nat.le_zero.mp hl)]
    rw [show chunk75 [] = [] from by rw [chunk75]; simp]
    rfl
  | succ n ih =>
    intro l hl hws
    by_cases hnil : l = []
    · rw [hnil]
      rw [show chunk75 [] = [] from by rw [chunk75]; simp]
      rfl
    · by_cases hle : l.length ≤ 75
      · show trimStr (rep75Aux l 75) = _
        rw [rep75Aux_all l 75 hle, trimStr_of_wsFree l hws, chunk75, dif_neg hnil, if_pos hle]
        show l = List.intercalate [' '] [l]
        simp [List.intercalate]
      · push_neg at hle
        have htake : (l.take 75).length = 75 := by
          rw [List.length_take]
          omega
        have hdropne : l.drop 75 ≠ [] := by
          intro e
          have h2 := congrArg List.length e
          rw [List.length_drop] at h2
          simp only [List.length_nil] at h2
          omega
        have h1 : rep75Aux l 75 = l.take 75 ++ ' ' :: rep75Aux (l.drop 75) 75 := by
          conv_lhs => rw [← List.take_append_drop 75 l]
          exact rep75Aux_append75 (l.take 75) (l.drop 75) hdropne 75 htake
        have htakews : ∀ c ∈ l.take 75, isJsWS c = false :=
          fun c hc => hws c (List.take_subset 75 l hc)
        have hdropws : ∀ c ∈ l.drop 75, isJsWS c = false :=
          fun c hc => hws c (List.drop_subset 75 l hc)
        -- the recursive piece has a non-whitespace head
        obtain ⟨d, t2, hd⟩ : ∃ d t2, l.drop 75 = d :: t2 := by
          cases hdt : l.drop 75 with
          | nil => exact absurd hdt hdropne
          | cons d t2 => exact ⟨d, t2, rfl⟩
        have hdws : isJsWS d = false := hdropws d (by rw [hd]; exact List.mem_cons_self d t2)
        have hXhead : rep75Aux (l.drop 75) 75 = d :: rep75Aux t2 74 := by
          rw [hd]
          rfl
        have hXtrimR : trimRight (rep75Aux (l.drop 75) 75) ≠ [] := by
          rw [hXhead]
          exact trimRight_ne_nil d (rep75Aux t2 74) hdws
        -- assemble the trim of `take ++ ' ' :: rep75Aux drop`
        show trimStr (rep75Aux l 75) = _
        rw [h1]
        obtain ⟨c0, t0, hc0⟩ : ∃ c0 t0, l.take 75 = c0 :: t0 := by
          cases hct : l.take 75 with
          | nil =>
            rw [hct] at htake
            simp at htake
          | cons c0 t0 => exact ⟨c0, t0, rfl⟩
        have hc0ws : isJsWS c0 = false := htakews c0 (by rw [hc0]; exact List.mem_cons_self c0 t0)
        have htrimL : trimLeft (l.take 75 ++ ' ' :: rep75Aux (l.drop 75) 75) =
            l.take 75 ++ ' ' :: rep75Aux (l.drop 75) 75 := by
          rw [hc0, List.cons_append]
          exact trimLeft_cons_of c0 (t0 ++ ' ' :: rep75Aux (l.drop 75) 75) hc0ws
        show trimRight (trimLeft (l.take 75 ++ ' ' :: rep75Aux (l.drop 75) 75)) = _
        rw [htrimL, List.append_cons (l.take 75) ' ' (rep75Aux (l.drop 75) 75),
          trimRight_append_of_ne (l.take 75 ++ [' ']) (rep75Aux (l.drop 75) 75) hXtrimR]
        have hXtrimLfix : trimLeft (rep75Aux (l.drop 75) 75) = rep75Aux (l.drop 75) 75 := by
          rw [hXhead]
          exact trimLeft_cons_of d (rep75Aux t2 74) hdws
        have hIH : trimRight (rep75Aux (l.drop 75) 75) =
            List.intercalate [' '] (chunk75 (l.drop 75)) := by
          have hlen : (l.drop 75).length ≤ n := by
            rw [List.length_drop]
            omega
          have h5 : trimRight (trimLeft (rep75Aux (l.drop 75) 75)) =
              List.intercalate [' '] (chunk75 (l.drop 75)) := ih (l.drop 75) hlen hdropws
          rw [hXtrimLfix] at h5
          exact h5
        rw [hIH,
          show chunk75 l = l.take 75 :: chunk75 (l.drop 75) from by
            rw [chunk75, dif_neg hnil, if_neg (by omega)]]
        rw [intercalate_cons_of_ne [' '] (l.take 75) (chunk75 (l.drop 75))
          (chunk75_ne_nil (l.drop 75) hdropne)]

theorem foldSigB_eq_intercalate (l : Str) (hws : ∀ c ∈ l, isJsWS c = false) :
    foldSigB l = List.intercalate [' '] (chunk75 l) :=
  foldSigB_intercalate_aux l.length l (le_refl _) hws

theorem renderTag_b_folded (ty : Str) (toASCII : Str → Option Str) (val : Str)
    (h1 : val ≠ []) (h2 : ∀ c ∈ val, isJsWS c = false) :
    renderTag ty true toASCII "b".data (.str val) =
      List.intercalate [' '] (chunk75 ("b=".data ++ val)) := by
  have hval : val.isEmpty = false := by
    cases val with
    | nil => exact absurd rfl h1
    | cons c t => rfl
  simp only [renderTag, jvalOrEmpty, hval, Bool.not_false, Bool.and_true,
    show ("b".data == "b".data) = true from rfl, Bool.true_and, if_true]
  refine foldSigB_eq_intercalate ("b=".data ++ val) ?_
  intro c hc
  rcases List.mem_append.mp hc with hc | hc
  · simp only [List.mem_cons, List.not_mem_nil, or_false] at hc
    rcases hc with rfl | rfl <;> rfl
  · exact h2 c hc

theorem renderTag_d_or_s (ty : Str) (folded : Bool) (toASCII : Str → Option Str)
    (k : Str) (val : Str) (hk : k = "d".data ∨ k = "s".data) :
    renderTag ty folded toASCII k (.str val) = k ++ '=' :: ((toASCII val).getD val) := by
  rcases hk with rfl | rfl
  · simp only [renderTag, jvalOrEmpty,
      show ("d".data == "b".data) = false from rfl, Bool.false_and, Bool.false_eq_true, if_false,
      show ("d".data == "d".data || "d".data == "s".data) = true from rfl, if_true,
      show ("d".data == "i".data) = false from rfl]
  · simp only [renderTag, jvalOrEmpty,
      show ("s".data == "b".data) = false from rfl, Bool.false_and, Bool.false_eq_true, if_false,
      show ("s".data == "d".data || "s".data == "s".data) = true from rfl, if_true,
      show ("s".data == "i".data) = false from rfl]

theorem findIdx_at_append (loc dom : Str) (h : '@' ∉ loc) :
    ∀ i, List.findIdx? (fun c => c == '@') (loc ++ '@' :: dom) i = some (i + loc.length) := by
  induction loc with
  | nil =>
    intro i
    rw [List.nil_append]
    simp [List.findIdx?]
  | cons x t ih =>
    intro i
    have hx : (x == '@') = false :=
      beq_eq_false_iff_ne.mpr (fun e => h (e ▸ List.mem_cons_self x t))
    rw [List.cons_append]
    rw [show List.findIdx? (fun c => c == '@') (x :: (t ++ '@' :: dom)) i =
        if (x == '@') = true then some i
        else List.findIdx? (fun c => c == '@') (t ++ '@' :: dom) (i + 1) from rfl]
    rw [hx]
    simp only [Bool.false_eq_true, if_false]
    rw [ih (fun e => h (List.mem_cons_of_mem x e)) (i + 1)]
    congr 1
    simp [List.length_cons]
    omega

theorem renderTag_i_dkim (folded : Bool) (toASCII : Str → Option Str) (loc dom : Str)
    (h : '@' ∉ loc) :
    renderTag "DKIM".data folded toASCII "i".data (.str (loc ++ '@' :: dom)) =
      "i".data ++ '=' :: (loc ++ '@' :: ((toASCII dom).getD dom)) := by
  have hidx : List.findIdx? (fun c => c == '@') (loc ++ '@' :: dom) = some loc.length := by
    have h0 := findIdx_at_append loc dom h 0
    simpa using h0
  have htake : (loc ++ '@' :: dom).take (loc.length + 1) = loc ++ ['@'] := by
    rw [List.append_cons, List.take_append_eq_append_take,
      List.take_of_length_le (by simp : (loc ++ ['@']).length ≤ loc.length + 1),
      show loc.length + 1 - (loc ++ ['@']).length = 0 from by simp, List.take_zero,
      List.append_nil]
  have hdrop : (loc ++ '@' :: dom).drop (loc.length + 1) = dom := by
    rw [List.append_cons, List.drop_append_eq_append_drop,
      List.drop_of_length_le (by simp : (loc ++ ['@']).length ≤ loc.length + 1),
      show loc.length + 1 - (loc ++ ['@']).length = 0 from by simp, List.drop_zero,
      List.nil_append]
  simp only [renderTag, jvalOrEmpty,
    show ("i".data == "b".data) = false from rfl, Bool.false_and, Bool.false_eq_true, if_false,
    show ("i".data == "d".data || "i".data == "s".data) = false from rfl,
    show ("i".data == "i".data && "DKIM".data == "DKIM".data) = true from rfl, if_true,
    hidx, htake, hdrop]
  rw [← List.append_cons]

/-- **C7.**  `formatSignatureHeaderLine` (tools.js lines 29-31, 142-231)
emits: the `DKIM-Signature` header ordered by `v,a,c,d,h,i,l,q,s,t,x,z,bh,b`,
the `ARC-Message-Signature` header ordered by `i,a,c,d,h,l,q,s,t,x,z,bh,b`,
and the `ARC-Seal` header ordered by `i,a,t,cv,d,s,b` — for any value set
the emitted key sequence is exactly the canonical ordering restricted to
the present keys; with folding requested the `b=` tag is split into
75-character segments; and the `d=` and `s=` values and the domain part of
a DKIM `i=` value are passed through `punycode.toASCII`. -/
theorem formatSignatureHeader_canonical (now : Nat) (toASCII : Str → Option Str) :
    (headerKeyOf "DKIM".data = some "DKIM-Signature".data ∧
      keyOrderingOf "DKIM".data = keyOrderingDKIM ∧
      headerKeyOf "ARC".data = some "ARC-Message-Signature".data ∧
      keyOrderingOf "ARC".data = keyOrderingARC ∧
      headerKeyOf "AS".data = some "ARC-Seal".data ∧
      keyOrderingOf "AS".data = keyOrderingAS) ∧
    (∀ (ty : Str) (values : List (Str × JVal)),
      ((objAssign (sigDefaults ty now) values).map Prod.fst).Nodup →
      (sigTagsOrdered ty now values).map Prod.fst =
        (keyOrderingOf ty).filter (fun k =>
          (((objAssign (sigDefaults ty now) values).filter
            (sigKeep (keyOrderingOf ty))).map Prod.fst).contains k)) ∧
    (∀ (ty : Str) (val : Str), val ≠ [] → (∀ c ∈ val, isJsWS c = false) →
      renderTag ty true toASCII "b".data (.str val) =
        List.intercalate [' '] (chunk75 ("b=".data ++ val))) ∧
    (∀ (ty : Str) (folded : Bool) (k val : Str), (k = "d".data ∨ k = "s".data) →
      renderTag ty folded toASCII k (.str val) = k ++ '=' :: ((toASCII val).getD val)) ∧
    (∀ (folded : Bool) (loc dom : Str), '@' ∉ loc →
      renderTag "DKIM".data folded toASCII "i".data (.str (loc ++ '@' :: dom)) =
        "i".data ++ '=' :: (loc ++ '@' :: ((toASCII dom).getD dom))) := by
  refine ⟨⟨rfl, rfl, rfl, rfl, rfl, rfl⟩, ?_, ?_, ?_, ?_⟩
  · intro ty values h
    have hsub : (((objAssign (sigDefaults ty now) values).filter
        (sigKeep (keyOrderingOf ty))).map Prod.fst).Nodup :=
      List.Nodup.sublist ((List.filter_sublist _).map Prod.fst) h
    have hmem : ∀ kv ∈ (objAssign (sigDefaults ty now) values).filter
        (sigKeep (keyOrderingOf ty)), kv.1 ∈ keyOrderingOf ty := by
      intro kv hkv
      have h2 := (List.mem_filter.mp hkv).2
      unfold sigKeep at h2
      rw [Bool.and_eq_true] at h2
      exact List.elem_iff.mp h2.2
    exact insertionSort_tagIdx_filter (keyOrderingOf ty)
      ((objAssign (sigDefaults ty now) values).filter (sigKeep (keyOrderingOf ty)))
      (keyOrderingOf_nodup ty) hsub hmem
  · intro ty val h1 h2
    exact renderTag_b_folded ty toASCII val h1 h2
  · intro ty folded k val hk
    exact renderTag_d_or_s ty folded toASCII k val hk
  · intro folded loc dom h
    exact renderTag_i_dkim folded toASCII loc dom h

/-- Witness for `formatSignatureHeader_canonical` on concrete inputs: an
`ARC-Seal` value set, a `b=` value of 80 characters, a `d=` tag and a DKIM
`i=` identity. -/
theorem formatSignatureHeader_canonical_witness :
    ((sigTagsOrdered "AS".data 5
        [("d".data, .str "example.com".data), ("cv".data, .str "pass".data),
         ("b".data, .str "QUJD".data), ("s".data, .str "sel".data),
         ("i".data, .num 2), ("a".data, .str "rsa-sha256".data)]).map Prod.fst =
      (keyOrderingOf "AS".data).filter (fun k =>
        (((objAssign (sigDefaults "AS".data 5)
            [("d".data, .str "example.com".data), ("cv".data, .str "pass".data),
             ("b".data, .str "QUJD".data), ("s".data, .str "sel".data),
             ("i".data, .num 2), ("a".data, .str "rsa-sha256".data)]).filter
          (sigKeep (keyOrderingOf "AS".data))).map Prod.fst).contains k)) ∧
    (renderTag "DKIM".data true (fun s => some s) "b".data (.str (List.replicate 80 'Q')) =
      List.intercalate [' '] (chunk75 ("b=".data ++ List.replicate 80 'Q'))) ∧
    (renderTag "DKIM".data false (fun _ => some "xn--d".data) "d".data (.str "dom".data) =
      "d".data ++ '=' :: "xn--d".data) ∧
    (renderTag "DKIM".data false (fun _ => some "xn--i".data) "i".data
        (.str ("user".data ++ '@' :: "dom.com".data)) =
      "i".data ++ '=' :: ("user".data ++ '@' :: "xn--i".data)) := by
  refine ⟨?_, ?_, ?_, ?_⟩
  · exact (formatSignatureHeader_canonical 5 (fun s => some s)).2.1 "AS".data
      [("d".data, .str "example.com".data), ("cv".data, .str "pass".data),
       ("b".data, .str "QUJD".data), ("s".data, .str "sel".data),
       ("i".data, .num 2), ("a".data, .str "rsa-sha256".data)] (by decide)
  · exact (formatSignatureHeader_canonical 5 (fun s => some s)).2.2.1 "DKIM".data
      (List.replicate 80 'Q') (by decide) (by decide)
  · exact (formatSignatureHeader_canonical 5 (fun _ => some "xn--d".data)).2.2.2.1
      "DKIM".data false "d".data "dom".data (Or.inl rfl)
  · exact (formatSignatureHeader_canonical 5 (fun _ => some "xn--i".data)).2.2.2.2
      false "user".data "dom.com".data (by decide)

end Mailauth
